import Mathlib

/-!
Formal model of the AgentSwarm orchestration engine (the Python code under
`src/engine/`): a shallow embedding of the data model and of the operations of
the sub-planner (`subplanner.py`), root planner (`planner.py`), worker pool
(`worker.py`), project-state reader (`project_state.py`) and response parser
(`parsing.py`), together with theorems checking the specification's claims
about them.

Conventions of the embedding:
* Python `str` is `String` (or `List Char` inside character-level walks);
  Python `int` is `Int` (or `Nat` where the source only ever holds counts).
* `x | None` fields are `Option`; Python's falsy-`or` is modelled explicitly
  (`pyOrStr`, `pyOrInt`, ...), since `0`, `""` and `[]` are falsy.
* Filesystem and wall-clock effects are passed in explicitly (a directory is
  the list of relative paths it holds; elapsed times come from an environment
  record); LLM calls are oracles supplied by an environment record.
-/

namespace AgentSwarm

/-! ## Core data types (`types.py`) -/

inductive TeamRole where
  | product
  | engineering
  | quality
deriving DecidableEq, Repr

/-- `TeamRole(value)`: the str-enum constructor, `ValueError` as `none`. -/
def teamRoleOfString (s : String) : Option TeamRole :=
  if s = "product" then some TeamRole.product
  else if s = "engineering" then some TeamRole.engineering
  else if s = "quality" then some TeamRole.quality
  else none

/-- `Task` (the fields used by the verified operations; `status`,
`created_at` and `retry_count` are carried by no claim and `created_at` is
wall-clock, so they are omitted). -/
structure Task where
  id : String
  description : String
  scope : List String
  acceptance : String
  team : TeamRole
  priority : Int
  parent_id : Option String
deriving DecidableEq, Repr

structure HandoffMetrics where
  files_created : Nat
  files_modified : Nat
  tokens_used : Nat
  duration_ms : Nat
deriving DecidableEq, Repr

structure Handoff where
  task_id : String
  status : String
  summary : String
  files_changed : List String
  concerns : List String
  suggestions : List String
  metrics : HandoffMetrics
deriving DecidableEq, Repr

structure FileOperation where
  path : String
  content : String
deriving DecidableEq, Repr

/-- `RawTaskInput` (`parsing.py`), fields as annotated on the dataclass. -/
structure RawTaskInput where
  id : Option String
  description : String
  scope : Option (List String)
  acceptance : Option String
  priority : Option Int
  team : Option String
deriving DecidableEq, Repr

/-! ## Python-semantics helpers -/

/-- Python `v or d` for `v : str | None` (both `None` and `""` are falsy). -/
def pyOrStr (v : Option String) (d : String) : String :=
  match v with
  | none => d
  | some s => if s = "" then d else s

/-- Python `v or d` for `v : int | None` (both `None` and `0` are falsy). -/
def pyOrInt (v : Option Int) (d : Int) : Int :=
  match v with
  | none => d
  | some n => if n = 0 then d else n

/-- Python `v or []` for `v : list[str] | None`: an empty list is falsy but
the default is the empty list as well. -/
def pyOrListStr (v : Option (List String)) : List String :=
  match v with
  | none => []
  | some l => l

/-- Split a character list on a separator character (Python `str.split(sep)`
semantics: `""` splits to `[""]`, separators at the ends produce empty
parts). -/
def splitOnChar (sep : Char) : List Char → List (List Char)
  | [] => [[]]
  | c :: rest =>
    let r := splitOnChar sep rest
    if c = sep then [] :: r
    else
      match r with
      | [] => [[c]]
      | h :: t => (c :: h) :: t

/-- Python `str.lower()` (ASCII; the engine only lowercases team tags and
file extensions). -/
def pyLower (s : String) : String :=
  String.mk (s.data.map Char.toLower)

/-- The whitespace set of Python `str.strip` (ASCII part). -/
def isPyWs (c : Char) : Bool :=
  c = ' ' || c = '\t' || c = '\n' || c = '\r' || c = '\x0b' || c = '\x0c'

/-- Python `str.strip()` on a character list. -/
def pyStrip (l : List Char) : List Char :=
  ((l.dropWhile isPyWs).reverse.dropWhile isPyWs).reverse

/-- Python `str.rstrip()` on a character list. -/
def pyRstrip (l : List Char) : List Char :=
  (l.reverse.dropWhile isPyWs).reverse

/-- `not raw.description or not raw.description.strip()`: the guard under
which a raw task is skipped by both task builders. -/
def descriptionBlank (d : String) : Bool :=
  d = "" || pyStrip d.data = []

/-! ## Sub-planner (`subplanner.py`) -/

def MAX_DEPTH : Nat := 3
def SCOPE_THRESHOLD : Nat := 4
def MAX_SUBTASKS : Nat := 10

/-- `Subplanner.should_decompose`. -/
def shouldDecompose (task : Task) (depth : Nat) : Bool :=
  if depth ≥ MAX_DEPTH then false
  else if task.scope.length < SCOPE_THRESHOLD then false
  else true

/-- The team a subtask is given: `parent.team or ENGINEERING`, then
`TeamRole(raw.team.lower())` when `raw.team` is truthy, keeping the previous
value on `ValueError` (`Task.team` is never `None`, so the leading `or`
returns the parent team). -/
def subtaskTeam (parent : Task) (rawTeam : Option String) : TeamRole :=
  let team := parent.team
  match rawTeam with
  | none => team
  | some s =>
      if s = "" then team
      else
        match teamRoleOfString (pyLower s) with
        | some t => t
        | none => team

/-- The per-raw loop body of `Subplanner._build_subtasks`, with the running
`sub_counter` made explicit (it starts at `len(dispatched_ids)` and is
incremented for every raw task whose description is non-blank). -/
def buildSubtasksGo (parent : Task) (dispatched : List String) :
    List RawTaskInput → Nat → List Task
  | [], _ => []
  | raw :: rest, counter =>
    if descriptionBlank raw.description then
      buildSubtasksGo parent dispatched rest counter
    else
      let counter2 := counter + 1
      let taskId := pyOrStr raw.id (parent.id ++ "-sub-" ++ toString counter2)
      if taskId ∈ dispatched then
        buildSubtasksGo parent dispatched rest counter2
      else
        let validScope := pyOrListStr raw.scope
        let mk : List String → List Task := fun scope =>
          { id := taskId
            parent_id := some parent.id
            description := raw.description
            scope := scope
            acceptance := pyOrStr raw.acceptance ""
            priority := pyOrInt raw.priority parent.priority
            team := subtaskTeam parent raw.team } ::
            buildSubtasksGo parent dispatched rest counter2
        if parent.scope ≠ [] then
          let invalid := validScope.filter (fun f => f ∉ parent.scope)
          if invalid ≠ [] then
            let filtered := validScope.filter (fun f => f ∈ parent.scope)
            if filtered = [] then buildSubtasksGo parent dispatched rest counter2
            else mk filtered
          else mk validScope
        else mk validScope

/-- `Subplanner._build_subtasks`: build subtasks from raw planner output,
then truncate to `MAX_SUBTASKS`. -/
def buildSubtasks (raws : List RawTaskInput) (parent : Task)
    (dispatched : List String) : List Task :=
  let subtasks := buildSubtasksGo parent dispatched raws dispatched.length
  if subtasks.length > MAX_SUBTASKS then subtasks.take MAX_SUBTASKS else subtasks

/-- `Subplanner._aggregate_handoffs`. -/
def aggregateHandoffs (parent : Task) (subtasks : List Task)
    (handoffs : List Handoff) : Handoff :=
  let completed := (handoffs.filter (fun h => h.status = "complete")).length
  let failedN := (handoffs.filter (fun h => h.status = "failed")).length
  let total := subtasks.length
  let status :=
    if completed = total then "complete"
    else if failedN = total then "failed"
    else if completed > 0 then "partial"
    else "blocked"
  let summaryParts := handoffs.map (fun h =>
    "[" ++ h.task_id ++ "] (" ++ h.status ++ "): " ++ h.summary)
  let summary :=
    "Decomposed \"" ++ (String.mk (parent.description.data.take 80)) ++ "\" into "
      ++ toString total ++ " subtasks. " ++ toString completed ++ " complete, "
      ++ toString failedN ++ " failed, "
      ++ toString (total - completed - failedN) ++ " other.\n\n"
      ++ String.intercalate "\n" summaryParts
  let allFiles :=
    ((handoffs.flatMap (fun h => h.files_changed)).dedup).mergeSort
      (fun a b => a ≤ b)
  let allConcerns := handoffs.flatMap (fun h =>
    h.concerns.map (fun c => "[" ++ h.task_id ++ "] " ++ c))
  let allSuggestions := handoffs.flatMap (fun h =>
    h.suggestions.map (fun s => "[" ++ h.task_id ++ "] " ++ s))
  { task_id := parent.id
    status := status
    summary := summary
    files_changed := allFiles
    concerns := allConcerns
    suggestions := allSuggestions
    metrics :=
      { tokens_used := (handoffs.map (fun h => h.metrics.tokens_used)).sum
        duration_ms := (handoffs.map (fun h => h.metrics.duration_ms)).foldl max 0
        files_created := (handoffs.map (fun h => h.metrics.files_created)).sum
        files_modified := (handoffs.map (fun h => h.metrics.files_modified)).sum } }

/-! ## Root planner task building (`planner.py`) -/

/-- `f"task-{n:03d}"`: zero-padded three-digit task id. -/
def padNum3 (n : Nat) : String :=
  if n < 10 then "00" ++ toString n
  else if n < 100 then "0" ++ toString n
  else toString n

/-- The team the root planner assigns: `ENGINEERING`, overridden by
`TeamRole(raw.team.lower())` when `raw.team` is truthy and names a valid
role. -/
def plannerTeam (rawTeam : Option String) : TeamRole :=
  match rawTeam with
  | none => TeamRole.engineering
  | some s =>
      if s = "" then TeamRole.engineering
      else
        match teamRoleOfString (pyLower s) with
        | some t => t
        | none => TeamRole.engineering

/-- The per-raw loop body of `Planner._build_tasks_from_raw`, with the
running `task_counter` made explicit (incremented for every raw task whose
description is non-blank). -/
def buildTasksFromRawGo (dispatched : List String) :
    List RawTaskInput → Nat → List Task
  | [], _ => []
  | raw :: rest, counter =>
    if descriptionBlank raw.description then
      buildTasksFromRawGo dispatched rest counter
    else
      let counter2 := counter + 1
      let taskId := pyOrStr raw.id ("task-" ++ padNum3 counter2)
      if taskId ∈ dispatched then
        buildTasksFromRawGo dispatched rest counter2
      else
        { id := taskId
          parent_id := none
          description := raw.description
          scope := pyOrListStr raw.scope
          acceptance := pyOrStr raw.acceptance ""
          priority := pyOrInt raw.priority 5
          team := plannerTeam raw.team } ::
          buildTasksFromRawGo dispatched rest counter2

/-- `Planner._build_tasks_from_raw`: convert raw LLM output to `Task`
objects, deduplicating against the already dispatched ids. -/
def buildTasksFromRaw (raws : List RawTaskInput) (dispatched : List String)
    (taskCounter : Nat) : List Task :=
  buildTasksFromRawGo dispatched raws taskCounter

/-! ## Project-state reader (`project_state.py`)

The filesystem walk is modelled by its input: the list of relative POSIX
paths of all regular files below `output_dir`, in the sorted order produced
by `sorted(output_dir.rglob("*"))`. -/

def MAX_FILE_TREE_ENTRIES : Nat := 500

def SKIP_DIRS : List String :=
  [".git", "node_modules", "__pycache__", ".venv", "venv",
   ".mypy_cache", ".pytest_cache", "dist", "build", ".turbo",
   ".next", ".nuxt", "target"]

/-- A file survives the walk unless some path component is a skip directory
or starts with a dot. -/
def eligiblePath (rel : String) : Bool :=
  !((splitOnChar '/' rel.data).any (fun part =>
      String.mk part ∈ SKIP_DIRS || part.headD ' ' = '.'))

/-- `read_project_state`: the `file_tree` it returns, as a function of the
walked relative paths. -/
def readProjectStateTree (paths : List String) : List String :=
  let files := paths.filter eligiblePath
  if files.length > MAX_FILE_TREE_ENTRIES then
    files.take MAX_FILE_TREE_ENTRIES ++
      ["... (" ++ toString (files.length - MAX_FILE_TREE_ENTRIES) ++ " more files)"]
  else files

/-! ## Worker pool: asset blocking and file application (`worker.py`) -/

def assetExtensions : List String :=
  [".png", ".jpg", ".jpeg", ".gif", ".bmp", ".svg", ".ico", ".webp",
   ".ttf", ".otf", ".woff", ".woff2", ".eot",
   ".mp3", ".wav", ".ogg", ".flac", ".aac",
   ".mp4", ".avi", ".mov", ".webm"]

/-- `"." + path.rsplit(".", 1)[-1].lower() if "." in path else ""`. -/
def pathExtension (path : String) : String :=
  if path.data.contains '.' then
    "." ++ pyLower (String.mk ((splitOnChar '.' path.data).getLastD []))
  else ""

/-- `WorkerPool._is_asset_file`. -/
def isAssetFile (path : String) : Bool :=
  pathExtension path ∈ assetExtensions

/-- Result of applying a worker's file operations to the output directory
(modelled as the list of relative paths that exist in it). -/
structure ApplyResult where
  fs : List String
  writes : List FileOperation
  files_created : Nat
  files_modified : Nat
deriving DecidableEq, Repr

/-- The file-application loop of `WorkerPool._execute_single`: per
operation, record pre-existence, skip asset files (logged, neither written
nor counted), otherwise write the full content and count it as created or
modified by pre-existence. -/
def applyFileOps : List String → List FileOperation → ApplyResult
  | fs, [] => { fs := fs, writes := [], files_created := 0, files_modified := 0 }
  | fs, op :: rest =>
    let existed := op.path ∈ fs
    if isAssetFile op.path then
      applyFileOps fs rest
    else
      let fs2 := if existed then fs else fs ++ [op.path]
      let r := applyFileOps fs2 rest
      { fs := r.fs
        writes := op :: r.writes
        files_created := (if existed then 0 else 1) + r.files_created
        files_modified := (if existed then 1 else 0) + r.files_modified }

/-! ## Helper lemmas -/

theorem filter_length_eq_iff_all {α : Type} (p : α → Bool) (l : List α) :
    (l.filter p).length = l.length ↔ ∀ a ∈ l, p a = true := by
  rw [← List.countP_eq_length_filter]
  exact List.countP_eq_length

theorem buildSubtasksGo_scope :
    ∀ (raws : List RawTaskInput) (parent : Task) (dispatched : List String)
      (counter : Nat), parent.scope ≠ [] →
      ∀ t ∈ buildSubtasksGo parent dispatched raws counter,
        t.scope ⊆ parent.scope
  | [], _, _, _, _ => by simp [buildSubtasksGo]
  | raw :: rest, parent, dispatched, counter, h => by
    intro t ht
    simp only [buildSubtasksGo] at ht
    by_cases hd : descriptionBlank raw.description
    · rw [if_pos hd] at ht
      exact buildSubtasksGo_scope rest parent dispatched counter h t ht
    · rw [if_neg hd] at ht
      by_cases hdup :
          pyOrStr raw.id (parent.id ++ "-sub-" ++ toString (counter + 1))
            ∈ dispatched
      · rw [if_pos hdup] at ht
        exact buildSubtasksGo_scope rest parent dispatched (counter + 1) h t ht
      · rw [if_neg hdup, if_pos h] at ht
        by_cases hinv :
            (pyOrListStr raw.scope).filter
              (fun f => decide (f ∉ parent.scope)) ≠ []
        · rw [if_pos hinv] at ht
          by_cases hemp :
              (pyOrListStr raw.scope).filter
                (fun f => decide (f ∈ parent.scope)) = []
          · rw [if_pos hemp] at ht
            exact buildSubtasksGo_scope rest parent dispatched (counter + 1) h t ht
          · rw [if_neg hemp] at ht
            rcases List.mem_cons.mp ht with rfl | hmem
            · intro p hp
              have := List.of_mem_filter hp
              simpa using this
            · exact buildSubtasksGo_scope rest parent dispatched (counter + 1) h t hmem
        · rw [if_neg hinv] at ht
          rcases List.mem_cons.mp ht with rfl | hmem
          · intro p hp
            have hall := List.filter_eq_nil_iff.mp (not_not.mp hinv)
            have := hall p hp
            simpa using this
          · exact buildSubtasksGo_scope rest parent dispatched (counter + 1) h t hmem

/-- **C1** (amended): when the parent's scope is non-empty, every subtask
built by `Subplanner._build_subtasks` has a scope that is a subset of the
parent's scope — proposed scope entries outside the parent scope are
removed, and a subtask whose filtered scope becomes empty is skipped.  (When
the parent's scope is empty the source skips the check entirely, see
`c1_counterexample`.) -/
theorem c1_subtask_scope_subset (raws : List RawTaskInput) (parent : Task)
    (dispatched : List String) (h : parent.scope ≠ []) :
    ∀ t ∈ buildSubtasks raws parent dispatched, t.scope ⊆ parent.scope := by
  intro t ht
  unfold buildSubtasks at ht
  by_cases hlen :
      (buildSubtasksGo parent dispatched raws dispatched.length).length
        > MAX_SUBTASKS
  · rw [if_pos hlen] at ht
    exact buildSubtasksGo_scope raws parent dispatched dispatched.length h t
      (List.take_subset _ _ ht)
  · rw [if_neg hlen] at ht
    exact buildSubtasksGo_scope raws parent dispatched dispatched.length h t ht

def c1Parent : Task :=
  { id := "p", description := "parent task", scope := [], acceptance := ""
    team := TeamRole.engineering, priority := 5, parent_id := none }

def c1Raw : RawTaskInput :=
  { id := none, description := "child", scope := some ["a.py"]
    acceptance := none, priority := none, team := none }

def c1Sub : Task :=
  { id := "p-sub-1", description := "child", scope := ["a.py"], acceptance := ""
    team := TeamRole.engineering, priority := 5, parent_id := some "p" }

/-- **C1** counterexample: a parent task with an *empty* scope skips the
subset check entirely, so the sub-planner builds and dispatches a subtask
whose scope contains a path (`"a.py"`) outside the parent's scope. -/
theorem c1_counterexample :
    buildSubtasks [c1Raw] c1Parent [] = [c1Sub] ∧
    "a.py" ∈ c1Sub.scope ∧ "a.py" ∉ c1Parent.scope := by decide

/-- Closed instance of `c1_subtask_scope_subset` at a concrete input. -/
theorem c1_subtask_scope_subset_witness :
    ([("x" : String)] ≠ []) ∧
    ∀ t ∈ buildSubtasks [c1Raw]
        { c1Parent with scope := ["x"] } [], t.scope ⊆ ["x"] := by
  refine ⟨by decide, ?_⟩
  exact c1_subtask_scope_subset [c1Raw] { c1Parent with scope := ["x"] } []
    (by decide)

/-- **C8**: `should_decompose(task, depth)` is true exactly when the depth is
below `MAX_DEPTH (3)` and the task's scope has at least
`SCOPE_THRESHOLD (4)` entries; in particular it is false at `depth = 3`. -/
theorem c8_should_decompose_iff (task : Task) (depth : Nat) :
    shouldDecompose task depth = true ↔
      (depth < 3 ∧ 4 ≤ task.scope.length) := by
  simp only [shouldDecompose, MAX_DEPTH, SCOPE_THRESHOLD]
  by_cases h1 : depth ≥ 3
  · rw [if_pos h1]
    constructor
    · intro h; exact absurd h (by simp)
    · intro h; exact absurd h.1 (by omega)
  · rw [if_neg h1]
    by_cases h2 : task.scope.length < 4
    · rw [if_pos h2]
      constructor
      · intro h; exact absurd h (by simp)
      · intro h; exact absurd h.2 (by omega)
    · rw [if_neg h2]
      constructor
      · intro h2x; exact ⟨by omega, by omega⟩
      · intro h2x; rfl

def c2DemoPaths : List String :=
  (List.range 501).map (fun i => "f" ++ toString i)

set_option maxRecDepth 4000 in
/-- **C2** counterexample: a directory holding 501 eligible files yields a
file tree of 501 entries (500 files plus the sentinel), refuting "at most
500 entries". -/
theorem c2_counterexample :
    ¬ ((readProjectStateTree c2DemoPaths).length ≤ 500) := by decide

/-- **C2** (amended): the file tree has at most **501** entries; when the
directory holds more than 500 eligible files the tree is the first 500 of
them followed by a sentinel string reporting how many were cut off. -/
theorem c2_tree_truncation (paths : List String) :
    (readProjectStateTree paths).length ≤ 501 ∧
    ((paths.filter eligiblePath).length > 500 →
      readProjectStateTree paths =
        (paths.filter eligiblePath).take 500 ++
          ["... (" ++ toString ((paths.filter eligiblePath).length - 500)
            ++ " more files)"]) := by
  constructor
  · unfold readProjectStateTree MAX_FILE_TREE_ENTRIES
    by_cases h : (paths.filter eligiblePath).length > 500
    · rw [if_pos h]
      have := List.length_take_le 500 (paths.filter eligiblePath)
      simp only [List.length_append, List.length_singleton]
      omega
    · rw [if_neg h]
      omega
  · intro h
    unfold readProjectStateTree MAX_FILE_TREE_ENTRIES
    rw [if_pos h]

set_option maxRecDepth 4000 in
/-- Closed instance of `c2_tree_truncation` at a concrete 501-file input. -/
theorem c2_tree_truncation_witness :
    ((c2DemoPaths.filter eligiblePath).length > 500) ∧
    readProjectStateTree c2DemoPaths =
      (c2DemoPaths.filter eligiblePath).take 500 ++
        ["... (" ++ toString ((c2DemoPaths.filter eligiblePath).length - 500)
          ++ " more files)"] :=
  ⟨by decide, (c2_tree_truncation c2DemoPaths).2 (by decide)⟩

/-- **C3**: the aggregated parent handoff is `complete` when all children
completed, `failed` when all failed (and not all completed), `partial` when
some but not all completed, and `blocked` otherwise; its `files_changed` is
the sorted, duplicate-free union of the children's `files_changed`. -/
theorem c3_aggregate_handoffs (parent : Task) (subtasks : List Task)
    (handoffs : List Handoff) (hlen : handoffs.length = subtasks.length) :
    ((∀ h ∈ handoffs, h.status = "complete") →
      (aggregateHandoffs parent subtasks handoffs).status = "complete") ∧
    (((∀ h ∈ handoffs, h.status = "failed") ∧
        ¬(∀ h ∈ handoffs, h.status = "complete")) →
      (aggregateHandoffs parent subtasks handoffs).status = "failed") ∧
    (((∃ h ∈ handoffs, h.status = "complete") ∧
        ¬(∀ h ∈ handoffs, h.status = "complete")) →
      (aggregateHandoffs parent subtasks handoffs).status = "partial") ∧
    (((¬ ∃ h ∈ handoffs, h.status = "complete") ∧
        ¬(∀ h ∈ handoffs, h.status = "failed")) →
      (aggregateHandoffs parent subtasks handoffs).status = "blocked") ∧
    ((aggregateHandoffs parent subtasks handoffs).files_changed.Sorted (· ≤ ·) ∧
      (aggregateHandoffs parent subtasks handoffs).files_changed.Nodup ∧
      ∀ f, f ∈ (aggregateHandoffs parent subtasks handoffs).files_changed ↔
        ∃ h ∈ handoffs, f ∈ h.files_changed) := by
  have lenC_all : (∀ h ∈ handoffs, h.status = "complete") →
      (handoffs.filter (fun h => decide (h.status = "complete"))).length
        = handoffs.length := fun hall =>
    (filter_length_eq_iff_all (fun h => decide (h.status = "complete"))
      handoffs).mpr (fun a ha => by simpa using hall a ha)
  have all_lenC : (handoffs.filter
        (fun h => decide (h.status = "complete"))).length = handoffs.length →
      ∀ h ∈ handoffs, h.status = "complete" := fun hl a ha => by
    have := (filter_length_eq_iff_all (fun h => decide (h.status = "complete"))
      handoffs).mp hl a ha
    simpa using this
  have lenF_all : (∀ h ∈ handoffs, h.status = "failed") →
      (handoffs.filter (fun h => decide (h.status = "failed"))).length
        = handoffs.length := fun hall =>
    (filter_length_eq_iff_all (fun h => decide (h.status = "failed"))
      handoffs).mpr (fun a ha => by simpa using hall a ha)
  have all_lenF : (handoffs.filter
        (fun h => decide (h.status = "failed"))).length = handoffs.length →
      ∀ h ∈ handoffs, h.status = "failed" := fun hl a ha => by
    have := (filter_length_eq_iff_all (fun h => decide (h.status = "failed"))
      handoffs).mp hl a ha
    simpa using this
  have lenC_le := List.length_filter_le
    (fun h : Handoff => decide (h.status = "complete")) handoffs
  have lenF_le := List.length_filter_le
    (fun h : Handoff => decide (h.status = "failed")) handoffs
  refine ⟨?_, ?_, ?_, ?_, ?_⟩
  · intro hall
    have h1 := lenC_all hall
    simp only [aggregateHandoffs]
    rw [if_pos (by omega)]
  · rintro ⟨hfail, hnotall⟩
    have h1 : (handoffs.filter (fun h => decide (h.status = "complete"))).length
        ≠ subtasks.length := by
      intro hcontra
      exact hnotall (all_lenC (by omega))
    have h2 := lenF_all hfail
    simp only [aggregateHandoffs]
    rw [if_neg h1, if_pos (by omega)]
  · rintro ⟨⟨w, hw, hwc⟩, hnotall⟩
    have h1 : (handoffs.filter (fun h => decide (h.status = "complete"))).length
        ≠ subtasks.length := by
      intro hcontra
      exact hnotall (all_lenC (by omega))
    have h2 : (handoffs.filter (fun h => decide (h.status = "failed"))).length
        ≠ subtasks.length := by
      intro hcontra
      have hwf : w.status = "failed" := all_lenF (by omega) w hw
      rw [hwc] at hwf
      exact absurd hwf (by decide)
    have h3 : 0 < (handoffs.filter
        (fun h => decide (h.status = "complete"))).length := by
      rw [List.length_pos_iff_exists_mem]
      exact ⟨w, List.mem_filter.mpr ⟨hw, by simpa using hwc⟩⟩
    simp only [aggregateHandoffs]
    rw [if_neg h1, if_neg h2, if_pos (by omega)]
  · rintro ⟨hnone, hnotfail⟩
    have hne : handoffs ≠ [] := by
      rintro rfl; exact hnotfail (by simp)
    have hlenpos : 0 < handoffs.length := List.length_pos_of_ne_nil hne
    have h0 : (handoffs.filter (fun h => decide (h.status = "complete"))).length
        = 0 := by
      rw [List.length_eq_zero, List.filter_eq_nil_iff]
      intro a ha hc
      exact hnone ⟨a, ha, by simpa using hc⟩
    have h1 : (handoffs.filter (fun h => decide (h.status = "complete"))).length
        ≠ subtasks.length := by omega
    have h2 : (handoffs.filter (fun h => decide (h.status = "failed"))).length
        ≠ subtasks.length := by
      intro hcontra
      exact hnotfail (all_lenF (by omega))
    simp only [aggregateHandoffs]
    rw [if_neg h1, if_neg h2, if_neg (by omega)]
  · have hperm :
        (((handoffs.flatMap (fun h => h.files_changed)).dedup).mergeSort
          (fun a b => a ≤ b)).Perm
          ((handoffs.flatMap (fun h => h.files_changed)).dedup) :=
      List.mergeSort_perm _ _
    refine ⟨?_, ?_, ?_⟩
    · have hs := @List.sorted_mergeSort String
        (fun a b : String => decide (a ≤ b))
        (fun a b c hab hbc => by
          simp only [decide_eq_true_eq] at *
          exact le_trans hab hbc)
        (fun a b => by
          simp only [Bool.or_eq_true, decide_eq_true_eq]
          exact le_total a b)
        ((handoffs.flatMap (fun h => h.files_changed)).dedup)
      simp only [aggregateHandoffs]
      exact List.Pairwise.imp (fun hab => by simpa using hab) hs
    · simp only [aggregateHandoffs]
      exact hperm.nodup_iff.mpr (List.nodup_dedup _)
    · intro f
      simp only [aggregateHandoffs]
      rw [hperm.mem_iff, List.mem_dedup, List.mem_flatMap]

def c3Handoff (tid status : String) : Handoff :=
  { task_id := tid, status := status, summary := "", files_changed := ["m.py"]
    concerns := [], suggestions := []
    metrics := { files_created := 0, files_modified := 0, tokens_used := 0
                 duration_ms := 0 } }

/-- Closed instance of `c3_aggregate_handoffs` at a concrete input. -/
theorem c3_aggregate_handoffs_witness :
    ([c3Handoff "a" "complete", c3Handoff "b" "failed"].length
        = [c1Sub, c1Sub].length) ∧
    (aggregateHandoffs c1Parent [c1Sub, c1Sub]
      [c3Handoff "a" "complete", c3Handoff "b" "failed"]).status = "partial" := by
  refine ⟨by decide, ?_⟩
  have h := (c3_aggregate_handoffs c1Parent [c1Sub, c1Sub]
    [c3Handoff "a" "complete", c3Handoff "b" "failed"] (by decide)).2.2.1
  exact h ⟨⟨c3Handoff "a" "complete", by decide, by decide⟩, by decide⟩

def c9Parent : Task :=
  { id := "p", description := "parent task", scope := ["a", "b", "c", "d"]
    acceptance := "", team := TeamRole.product, priority := 7
    parent_id := none }

def c9Raw : RawTaskInput :=
  { id := none, description := "child", scope := none, acceptance := none
    priority := none, team := some "designer" }

def c9Sub : Task :=
  { id := "p-sub-1", description := "child", scope := [], acceptance := ""
    team := TeamRole.product, priority := 7, parent_id := some "p" }

/-- **C9** counterexample: for a raw task with the unknown team tag
`"designer"` and no priority, under a parent with team `product` and
priority 7, the Sub-Planner builds a task with team `product` (the parent's
team, not `engineering`) and priority 7 (the parent's priority, not 5). -/
theorem c9_counterexample :
    buildSubtasks [c9Raw] c9Parent [] = [c9Sub] ∧
    c9Sub.team ≠ TeamRole.engineering ∧ c9Sub.priority ≠ 5 := by decide

/-- **C9** (amended): for a raw task whose team tag is present but unknown
and whose priority is missing, the **Root Planner** builds a task with team
`engineering` and priority 5, while the **Sub-Planner** falls back to the
*parent's* team and the *parent's* priority instead. -/
theorem c9_unknown_team_defaults (raw : RawTaskInput) (parent : Task)
    (dispatched : List String) (counter : Nat) (s : String)
    (hteam : raw.team = some s) (hne : s ≠ "")
    (hunk : teamRoleOfString (pyLower s) = none)
    (hpri : raw.priority = none) :
    (∀ t ∈ buildTasksFromRaw [raw] dispatched counter,
      t.team = TeamRole.engineering ∧ t.priority = 5) ∧
    (∀ t ∈ buildSubtasks [raw] parent dispatched,
      t.team = parent.team ∧ t.priority = parent.priority) := by
  have hteamv : plannerTeam raw.team = TeamRole.engineering := by
    rw [hteam]
    simp only [plannerTeam]
    rw [if_neg hne, hunk]
  have hteams : subtaskTeam parent raw.team = parent.team := by
    rw [hteam]
    simp only [subtaskTeam]
    rw [if_neg hne, hunk]
  have hpriv : pyOrInt raw.priority 5 = 5 := by rw [hpri]; rfl
  have hpris : pyOrInt raw.priority parent.priority = parent.priority := by
    rw [hpri]; rfl
  constructor
  · intro t ht
    simp only [buildTasksFromRaw, buildTasksFromRawGo] at ht
    by_cases hd : descriptionBlank raw.description
    · rw [if_pos hd] at ht; simp [buildTasksFromRawGo] at ht
    · rw [if_neg hd] at ht
      by_cases hdup : pyOrStr raw.id ("task-" ++ padNum3 (counter + 1))
          ∈ dispatched
      · rw [if_pos hdup] at ht; simp [buildTasksFromRawGo] at ht
      · rw [if_neg hdup] at ht
        rcases List.mem_cons.mp ht with rfl | hmem
        · exact ⟨hteamv, hpriv⟩
        · simp [buildTasksFromRawGo] at hmem
  · have hcase : ∀ (c : Nat), ∀ u ∈ buildSubtasksGo parent dispatched [raw] c,
        u.team = parent.team ∧ u.priority = parent.priority := by
      intro c u hu
      simp only [buildSubtasksGo] at hu
      by_cases hd : descriptionBlank raw.description
      · rw [if_pos hd] at hu; simp [buildSubtasksGo] at hu
      · rw [if_neg hd] at hu
        by_cases hdup : pyOrStr raw.id (parent.id ++ "-sub-" ++ toString (c + 1))
            ∈ dispatched
        · rw [if_pos hdup] at hu; simp [buildSubtasksGo] at hu
        · rw [if_neg hdup] at hu
          by_cases hps : parent.scope ≠ []
          · rw [if_pos hps] at hu
            by_cases hinv : (pyOrListStr raw.scope).filter
                (fun f => decide (f ∉ parent.scope)) ≠ []
            · rw [if_pos hinv] at hu
              by_cases hemp : (pyOrListStr raw.scope).filter
                  (fun f => decide (f ∈ parent.scope)) = []
              · rw [if_pos hemp] at hu; simp [buildSubtasksGo] at hu
              · rw [if_neg hemp] at hu
                rcases List.mem_cons.mp hu with rfl | hmem
                · exact ⟨hteams, hpris⟩
                · simp [buildSubtasksGo] at hmem
            · rw [if_neg hinv] at hu
              rcases List.mem_cons.mp hu with rfl | hmem
              · exact ⟨hteams, hpris⟩
              · simp [buildSubtasksGo] at hmem
          · rw [if_neg hps] at hu
            rcases List.mem_cons.mp hu with rfl | hmem
            · exact ⟨hteams, hpris⟩
            · simp [buildSubtasksGo] at hmem
    intro t ht
    unfold buildSubtasks at ht
    by_cases hlen : (buildSubtasksGo parent dispatched [raw]
        dispatched.length).length > MAX_SUBTASKS
    · rw [if_pos hlen] at ht
      exact hcase dispatched.length t (List.take_subset _ _ ht)
    · rw [if_neg hlen] at ht
      exact hcase dispatched.length t ht

/-- Closed instance of `c9_unknown_team_defaults` at a concrete input. -/
theorem c9_unknown_team_defaults_witness :
    (c9Raw.team = some "designer") ∧
    (∀ t ∈ buildTasksFromRaw [c9Raw] [] 0,
      t.team = TeamRole.engineering ∧ t.priority = 5) ∧
    (∀ t ∈ buildSubtasks [c9Raw] c9Parent [],
      t.team = c9Parent.team ∧ t.priority = c9Parent.priority) := by
  refine ⟨rfl, ?_⟩
  exact c9_unknown_team_defaults c9Raw c9Parent [] 0 "designer" rfl
    (by decide) (by decide) rfl

/-- **C10**: a raw planner task that explicitly carries priority `0` gets
the default priority 5 from the Root Planner, because `raw.priority or 5`
treats the integer 0 as falsy. -/
theorem c10_priority_zero_replaced (raw : RawTaskInput)
    (dispatched : List String) (counter : Nat)
    (hdesc : descriptionBlank raw.description = false)
    (hpri : raw.priority = some 0) :
    ∀ t ∈ buildTasksFromRaw [raw] dispatched counter,
      t.priority = 5 ∧ t.priority ≠ 0 := by
  have hpriv : pyOrInt raw.priority 5 = 5 := by rw [hpri]; rfl
  intro t ht
  simp only [buildTasksFromRaw, buildTasksFromRawGo] at ht
  rw [if_neg (by rw [hdesc]; exact Bool.false_ne_true)] at ht
  by_cases hdup : pyOrStr raw.id ("task-" ++ padNum3 (counter + 1))
      ∈ dispatched
  · rw [if_pos hdup] at ht; simp [buildTasksFromRawGo] at ht
  · rw [if_neg hdup] at ht
    rcases List.mem_cons.mp ht with rfl | hmem
    · refine ⟨hpriv, ?_⟩
      show pyOrInt raw.priority 5 ≠ 0
      rw [hpriv]
      decide
    · simp [buildTasksFromRawGo] at hmem

def c10Raw : RawTaskInput :=
  { id := some "t1", description := "urgent", scope := none, acceptance := none
    priority := some 0, team := none }

/-- Closed instance of `c10_priority_zero_replaced` at a concrete input. -/
theorem c10_priority_zero_replaced_witness :
    (descriptionBlank c10Raw.description = false) ∧
    (c10Raw.priority = some 0) ∧
    ∀ t ∈ buildTasksFromRaw [c10Raw] [] 0, t.priority = 5 ∧ t.priority ≠ 0 :=
  ⟨by decide, rfl, c10_priority_zero_replaced c10Raw [] 0 (by decide) rfl⟩

/-! ## A model of `json.loads` (`parsing.py` calls the stdlib decoder)

Python values decoded from JSON are modelled by `JVal`; `JVal.jnull` doubles
as Python `None`.  Floating-point literals are kept as their lexemes
(`jnumF`) — the engine never computes with them.  The recursive-descent
functions below follow the CPython `json` scanner: strings with the eight
escapes and `\uXXXX` (control characters must be escaped), numbers per
`(-?(?:0|[1-9]\d*))(\.\d+)?([eE][-+]?\d+)?`, the constants
`null`, `true`, `false`, `NaN`, `Infinity`, `-Infinity`, arrays and objects with
whitespace in ` \t\n\r` and no trailing commas, and nothing but whitespace
around the top-level value. -/

inductive JVal where
  | jnull
  | jbool (b : Bool)
  | jnum (n : Int)
  | jnumF (lexeme : String)
  | jstr (s : String)
  | jarr (elems : List JVal)
  | jobj (members : List (String × JVal))

def escChar (e : Char) : Option Char :=
  if e = '"' then some '"'
  else if e = '\\' then some '\\'
  else if e = '/' then some '/'
  else if e = 'b' then some '\x08'
  else if e = 'f' then some '\x0c'
  else if e = 'n' then some '\n'
  else if e = 'r' then some '\r'
  else if e = 't' then some '\t'
  else none

def hexVal (c : Char) : Option Nat :=
  if '0' ≤ c ∧ c ≤ '9' then some (c.toNat - 48)
  else if 'a' ≤ c ∧ c ≤ 'f' then some (c.toNat - 87)
  else if 'A' ≤ c ∧ c ≤ 'F' then some (c.toNat - 55)
  else none

/-- Scan a JSON string literal after its opening quote (surrogate pairs in
`\uXXXX` escapes are not recombined; the engine never feeds them). -/
def parseStringBody : List Char → Option (List Char × List Char)
  | [] => none
  | '"' :: rest => some ([], rest)
  | '\\' :: 'u' :: h1 :: h2 :: h3 :: h4 :: rest =>
    match hexVal h1, hexVal h2, hexVal h3, hexVal h4 with
    | some a, some b, some c, some d =>
      (parseStringBody rest).map (fun p =>
        (Char.ofNat (a * 4096 + b * 256 + c * 16 + d) :: p.1, p.2))
    | _, _, _, _ => none
  | '\\' :: e :: rest =>
    match escChar e with
    | some c => (parseStringBody rest).map (fun p => (c :: p.1, p.2))
    | none => none
  | c :: rest =>
    if c.toNat < 32 then none
    else (parseStringBody rest).map (fun p => (c :: p.1, p.2))

/-- JSON whitespace (` \t\n\r`, the CPython `json` `_w` class). -/
def isJWs (c : Char) : Bool :=
  c = ' ' || c = '\t' || c = '\n' || c = '\r'

def skipJWs (l : List Char) : List Char := l.dropWhile isJWs

def digitsToNat (ds : List Char) : Nat :=
  ds.foldl (fun a c => a * 10 + (c.toNat - 48)) 0

/-- Finish scanning a JSON number after its integer part: the optional
fraction and exponent groups of the scanner regex.  A number with either
group is a float and keeps its lexeme. -/
def finishNumber (neg : Bool) (intLex : List Char) (intVal : Nat)
    (rest : List Char) : JVal × List Char :=
  let fracPair : List Char × List Char :=
    match rest with
    | '.' :: r2 =>
      let fds := r2.takeWhile Char.isDigit
      if fds = [] then ([], rest) else ('.' :: fds, r2.dropWhile Char.isDigit)
    | _ => ([], rest)
  let frac := fracPair.1
  let rest2 := fracPair.2
  let expPair : List Char × List Char :=
    match rest2 with
    | 'e' :: r3 =>
      match r3 with
      | '+' :: r4 =>
        let eds := r4.takeWhile Char.isDigit
        if eds = [] then ([], rest2)
        else ('e' :: '+' :: eds, r4.dropWhile Char.isDigit)
      | '-' :: r4 =>
        let eds := r4.takeWhile Char.isDigit
        if eds = [] then ([], rest2)
        else ('e' :: '-' :: eds, r4.dropWhile Char.isDigit)
      | _ =>
        let eds := r3.takeWhile Char.isDigit
        if eds = [] then ([], rest2)
        else ('e' :: eds, r3.dropWhile Char.isDigit)
    | 'E' :: r3 =>
      match r3 with
      | '+' :: r4 =>
        let eds := r4.takeWhile Char.isDigit
        if eds = [] then ([], rest2)
        else ('E' :: '+' :: eds, r4.dropWhile Char.isDigit)
      | '-' :: r4 =>
        let eds := r4.takeWhile Char.isDigit
        if eds = [] then ([], rest2)
        else ('E' :: '-' :: eds, r4.dropWhile Char.isDigit)
      | _ =>
        let eds := r3.takeWhile Char.isDigit
        if eds = [] then ([], rest2)
        else ('E' :: eds, r3.dropWhile Char.isDigit)
    | _ => ([], rest2)
  let expL := expPair.1
  let rest3 := expPair.2
  if frac = [] ∧ expL = [] then
    (JVal.jnum (if neg then -(intVal : Int) else (intVal : Int)), rest)
  else
    (JVal.jnumF (String.mk
      ((if neg then ['-'] else []) ++ intLex ++ frac ++ expL)), rest3)

/-- The JSON number token (the integer part forbids leading zeros). -/
def parseNumber (s : List Char) : Option (JVal × List Char) :=
  let p : Bool × List Char := match s with
    | '-' :: rest => (true, rest)
    | _ => (false, s)
  let neg := p.1
  match p.2 with
  | '0' :: rest => some (finishNumber neg ['0'] 0 rest)
  | c :: _ =>
    if c.isDigit then
      let ds := p.2.takeWhile Char.isDigit
      some (finishNumber neg ds (digitsToNat ds) (p.2.dropWhile Char.isDigit))
    else none
  | [] => none

def startsWithLit (l : List Char) (lit : List Char) : Bool :=
  lit.isPrefixOf l

mutual

/-- One JSON value, dispatched on its first character in the order the
CPython scanner uses.  The fuel only bounds recursion; `tryJsonLoads`
supplies `length + 1`, which every input can consume. -/
def parseValue : Nat → List Char → Option (JVal × List Char)
  | 0, _ => none
  | _ + 1, [] => none
  | fuel + 1, c :: rest =>
    if c = '"' then
      (parseStringBody rest).map (fun p => (JVal.jstr (String.mk p.1), p.2))
    else if c = '{' then
      match skipJWs rest with
      | '}' :: r2 => some (JVal.jobj [], r2)
      | r1 => (parseMembers fuel r1).map (fun p => (JVal.jobj p.1, p.2))
    else if c = '[' then
      match skipJWs rest with
      | ']' :: r2 => some (JVal.jarr [], r2)
      | r1 => (parseElems fuel r1).map (fun p => (JVal.jarr p.1, p.2))
    else if startsWithLit (c :: rest) "null".data then
      some (JVal.jnull, (c :: rest).drop 4)
    else if startsWithLit (c :: rest) "true".data then
      some (JVal.jbool true, (c :: rest).drop 4)
    else if startsWithLit (c :: rest) "false".data then
      some (JVal.jbool false, (c :: rest).drop 5)
    else
      match parseNumber (c :: rest) with
      | some r => some r
      | none =>
        if startsWithLit (c :: rest) "NaN".data then
          some (JVal.jnumF "NaN", (c :: rest).drop 3)
        else if startsWithLit (c :: rest) "Infinity".data then
          some (JVal.jnumF "Infinity", (c :: rest).drop 8)
        else if startsWithLit (c :: rest) "-Infinity".data then
          some (JVal.jnumF "-Infinity", (c :: rest).drop 9)
        else none

/-- Object members from the first key's opening quote onwards (duplicate
keys are kept in order; every read goes through `pyDictGet`, which takes the
last one, as a Python `dict` build does). -/
def parseMembers : Nat → List Char → Option (List (String × JVal) × List Char)
  | 0, _ => none
  | fuel + 1, s =>
    match s with
    | '"' :: rest =>
      match parseStringBody rest with
      | none => none
      | some (key, r1) =>
        match skipJWs r1 with
        | ':' :: r3 =>
          match parseValue fuel (skipJWs r3) with
          | none => none
          | some (v, r4) =>
            match skipJWs r4 with
            | '}' :: r6 => some ([(String.mk key, v)], r6)
            | ',' :: r6 =>
              match skipJWs r6 with
              | '"' :: r7 =>
                (parseMembers fuel ('"' :: r7)).map (fun p =>
                  ((String.mk key, v) :: p.1, p.2))
              | _ => none
            | _ => none
        | _ => none
    | _ => none

/-- Array elements from the first element onwards. -/
def parseElems : Nat → List Char → Option (List JVal × List Char)
  | 0, _ => none
  | fuel + 1, s =>
    match parseValue fuel s with
    | none => none
    | some (v, r1) =>
      match skipJWs r1 with
      | ']' :: r2 => some ([v], r2)
      | ',' :: r2 =>
        (parseElems fuel (skipJWs r2)).map (fun p => (v :: p.1, p.2))
      | _ => none

end

/-- `_try_json_loads`: `json.loads`, with a decode error as `none`. -/
def tryJsonLoads (l : List Char) : Option JVal :=
  let t := skipJWs l
  match parseValue (t.length + 1) t with
  | some (v, rest) => if skipJWs rest = [] then some v else none
  | none => none

/-! ## JSON repair (`parsing.py`) -/

/-- The character-walk of `_fix_literal_newlines_in_strings`, with the
`in_string` flag as state: outside strings characters pass through and a
quote enters a string; inside strings escape pairs are kept verbatim, a
quote leaves the string, and literal newline / carriage-return / tab become
their escape sequences. -/
def fixNLGo : Bool → List Char → List Char
  | _, [] => []
  | false, c :: t =>
    if c = '"' then c :: fixNLGo true t else c :: fixNLGo false t
  | true, c :: t =>
    if c = '\\' then
      match t with
      | [] => [c]
      | d :: t2 => c :: d :: fixNLGo true t2
    else if c = '"' then c :: fixNLGo false t
    else if c = '\n' then '\\' :: 'n' :: fixNLGo true t
    else if c = '\r' then '\\' :: 'r' :: fixNLGo true t
    else if c = '\t' then '\\' :: 't' :: fixNLGo true t
    else c :: fixNLGo true t

/-- `_fix_literal_newlines_in_strings`. -/
def fixLiteralNewlinesInStrings (l : List Char) : List Char :=
  fixNLGo false l

/-- The whitespace class of the regex `\s` (ASCII part). -/
def isRegexWs (c : Char) : Bool :=
  c = ' ' || c = '\t' || c = '\n' || c = '\r' || c = '\x0b' || c = '\x0c'

/-- `re.sub(r',\s*([}\]])', r'\1', text)`: drop a comma (and the whitespace
after it) that directly precedes a closing brace or bracket; scanning is
left to right and non-overlapping, resuming after the replaced bracket. -/
def subTrailingCommasGo : Nat → List Char → List Char
  | 0, l => l
  | _ + 1, [] => []
  | fuel + 1, c :: rest =>
    if c = ',' then
      match rest.dropWhile isRegexWs with
      | '}' :: r2 => '}' :: subTrailingCommasGo fuel r2
      | ']' :: r2 => ']' :: subTrailingCommasGo fuel r2
      | _ => ',' :: subTrailingCommasGo fuel rest
    else c :: subTrailingCommasGo fuel rest

def subTrailingCommas (l : List Char) : List Char :=
  subTrailingCommasGo (l.length + 1) l

/-- The string-aware counting walk of `_fix_truncated_json`: returns the
final `in_string` flag and signed open-brace / open-bracket counts. -/
def truncScan : List Char → Bool → Int → Int → Bool × Int × Int
  | [], ins, ob, obk => (ins, ob, obk)
  | c :: rest, true, ob, obk =>
    if c = '\\' then
      match rest with
      | [] => (true, ob, obk)
      | _ :: r2 => truncScan r2 true ob obk
    else if c = '"' then truncScan rest false ob obk
    else truncScan rest true ob obk
  | c :: rest, false, ob, obk =>
    if c = '"' then truncScan rest true ob obk
    else if c = '{' then truncScan rest false (ob + 1) obk
    else if c = '}' then truncScan rest false (ob - 1) obk
    else if c = '[' then truncScan rest false ob (obk + 1)
    else if c = ']' then truncScan rest false ob (obk - 1)
    else truncScan rest false ob obk

/-- `_fix_truncated_json`: close a truncated JSON text by appending the
missing quote, brackets and braces; `none` when nothing is open. -/
def fixTruncatedJson (l : List Char) : Option (List Char) :=
  let r := truncScan l false 0 0
  let ins := r.1
  let ob := r.2.1
  let obk := r.2.2
  if ob ≤ 0 ∧ obk ≤ 0 then none
  else
    some (pyRstrip l ++ (if ins then ['"'] else [])
      ++ List.replicate (max 0 obk).toNat ']'
      ++ List.replicate (max 0 ob).toNat '}')

/-- `_repair_json`: the four-stage repair cascade; each stage is kept only
if its output decodes, and the newline-fixed text is returned as the best
attempt otherwise. -/
def repairJson (text : List Char) : List Char :=
  if (tryJsonLoads text).isSome then text
  else
    let repaired := fixLiteralNewlinesInStrings text
    if (tryJsonLoads repaired).isSome then repaired
    else
      let repaired2 := subTrailingCommas repaired
      if (tryJsonLoads repaired2).isSome then repaired2
      else
        match fixTruncatedJson repaired2 with
        | some repaired3 =>
          if repaired3 ≠ [] ∧ (tryJsonLoads repaired3).isSome then repaired3
          else repaired
        | none => repaired

/-- `_repair_json` lifted to `String` (the source operates on `str`). -/
def repairJsonStr (text : String) : String :=
  String.mk (repairJson text.data)

theorem fix_nil (b : Bool) : fixNLGo b [] = [] := by cases b <;> rfl

theorem fix_false_eq (c : Char) (t : List Char) : fixNLGo false (c :: t) =
    if c = '"' then c :: fixNLGo true t else c :: fixNLGo false t := by
  rw [fixNLGo.eq_def]

theorem fix_true_eq (c : Char) (t : List Char) : fixNLGo true (c :: t) =
    if c = '\\' then
      match t with
      | [] => [c]
      | d :: t2 => c :: d :: fixNLGo true t2
    else if c = '"' then c :: fixNLGo false t
    else if c = '\n' then '\\' :: 'n' :: fixNLGo true t
    else if c = '\r' then '\\' :: 'r' :: fixNLGo true t
    else if c = '\t' then '\\' :: 't' :: fixNLGo true t
    else c :: fixNLGo true t := by
  rw [fixNLGo.eq_def]

theorem fix_false_quote (t : List Char) :
    fixNLGo false ('"' :: t) = '"' :: fixNLGo true t := by
  rw [fix_false_eq, if_pos rfl]

theorem fix_false_other (c : Char) (t : List Char) (h : c ≠ '"') :
    fixNLGo false (c :: t) = c :: fixNLGo false t := by
  rw [fix_false_eq, if_neg h]

theorem fix_true_esc (d : Char) (t2 : List Char) :
    fixNLGo true ('\\' :: d :: t2) = '\\' :: d :: fixNLGo true t2 := by
  rw [fix_true_eq, if_pos rfl]

theorem fix_true_quote (t : List Char) :
    fixNLGo true ('"' :: t) = '"' :: fixNLGo false t := by
  rw [fix_true_eq, if_neg (by decide), if_pos rfl]

theorem fix_true_nl (t : List Char) :
    fixNLGo true ('\n' :: t) = '\\' :: 'n' :: fixNLGo true t := by
  rw [fix_true_eq, if_neg (by decide), if_neg (by decide), if_pos rfl]

theorem fix_true_cr (t : List Char) :
    fixNLGo true ('\r' :: t) = '\\' :: 'r' :: fixNLGo true t := by
  rw [fix_true_eq, if_neg (by decide), if_neg (by decide), if_neg (by decide),
    if_pos rfl]

theorem fix_true_tab (t : List Char) :
    fixNLGo true ('\t' :: t) = '\\' :: 't' :: fixNLGo true t := by
  rw [fix_true_eq, if_neg (by decide), if_neg (by decide), if_neg (by decide),
    if_neg (by decide), if_pos rfl]

theorem fix_true_other (c : Char) (t : List Char) (hb : c ≠ '\\')
    (hq : c ≠ '"') (hn : c ≠ '\n') (hr : c ≠ '\r') (htt : c ≠ '\t') :
    fixNLGo true (c :: t) = c :: fixNLGo true t := by
  rw [fix_true_eq, if_neg hb, if_neg hq, if_neg hn, if_neg hr, if_neg htt]

theorem fixNLGo_idem_aux :
    ∀ (n : Nat) (b : Bool) (l : List Char), l.length ≤ n →
      fixNLGo b (fixNLGo b l) = fixNLGo b l := by
  intro n
  induction n with
  | zero =>
    intro b l hl
    have hnil : l = [] := List.eq_nil_of_length_eq_zero (by omega)
    subst hnil
    rw [fix_nil, fix_nil]
  | succ n ih =>
    intro b l hl
    cases l with
    | nil => rw [fix_nil, fix_nil]
    | cons c t =>
      have ht : t.length ≤ n := by
        simp only [List.length_cons] at hl; omega
      cases b with
      | false =>
        by_cases h : c = '"'
        · subst h
          rw [fix_false_quote, fix_false_quote, ih true t ht]
        · rw [fix_false_other c t h, fix_false_other c _ h, ih false t ht]
      | true =>
        by_cases hb : c = '\\'
        · subst hb
          cases t with
          | nil => rfl
          | cons d t2 =>
            have ht2 : t2.length ≤ n := by
              simp only [List.length_cons] at hl; omega
            rw [fix_true_esc, fix_true_esc, ih true t2 ht2]
        · by_cases hq : c = '"'
          · subst hq
            rw [fix_true_quote, fix_true_quote, ih false t ht]
          · by_cases hn : c = '\n'
            · subst hn
              rw [fix_true_nl, fix_true_esc, ih true t ht]
            · by_cases hr : c = '\r'
              · subst hr
                rw [fix_true_cr, fix_true_esc, ih true t ht]
              · by_cases htt : c = '\t'
                · subst htt
                  rw [fix_true_tab, fix_true_esc, ih true t ht]
                · rw [fix_true_other c t hb hq hn hr htt,
                    fix_true_other c _ hb hq hn hr htt, ih true t ht]

/-- The newline-escaping walk is idempotent: a second pass finds no literal
newline, carriage return or tab left inside any string, and the escape
sequences the first pass inserted are skipped as escape pairs. -/
theorem fixLiteralNewlines_idem (l : List Char) :
    fixLiteralNewlinesInStrings (fixLiteralNewlinesInStrings l)
      = fixLiteralNewlinesInStrings l := by
  unfold fixLiteralNewlinesInStrings
  exact fixNLGo_idem_aux l.length false l (Nat.le_refl _)

/-- **C6**: `_repair_json` is idempotent.  Every branch that returns early
returns a string that decodes, on which a second call returns immediately;
the fall-through branch returns the newline-fixed text, on which a second
call re-runs every stage with identical outcomes (the newline fix itself is
idempotent) and falls through again. -/
theorem c6_repair_idempotent (text : String) :
    repairJsonStr (repairJsonStr text) = repairJsonStr text := by
  show String.mk (repairJson (String.mk (repairJson text.data)).data)
      = String.mk (repairJson text.data)
  have hdata : (String.mk (repairJson text.data)).data = repairJson text.data :=
    rfl
  rw [hdata]
  congr 1
  -- the list-level idempotence
  by_cases h0 : (tryJsonLoads text.data).isSome
  · have e1 : repairJson text.data = text.data := by
      unfold repairJson; rw [if_pos h0]
    rw [e1]
    exact e1
  · by_cases h1 :
        (tryJsonLoads (fixLiteralNewlinesInStrings text.data)).isSome
    · have e1 : repairJson text.data = fixLiteralNewlinesInStrings text.data := by
        simp only [repairJson]
        rw [if_neg h0, if_pos h1]
      rw [e1]
      unfold repairJson
      rw [if_pos h1]
    · by_cases h2 : (tryJsonLoads (subTrailingCommas
          (fixLiteralNewlinesInStrings text.data))).isSome
      · have e1 : repairJson text.data
            = subTrailingCommas (fixLiteralNewlinesInStrings text.data) := by
          simp only [repairJson]
          rw [if_neg h0, if_neg h1, if_pos h2]
        rw [e1]
        unfold repairJson
        rw [if_pos h2]
      · have hfix : fixLiteralNewlinesInStrings
            (fixLiteralNewlinesInStrings text.data)
            = fixLiteralNewlinesInStrings text.data :=
          fixLiteralNewlines_idem text.data
        cases hft : fixTruncatedJson (subTrailingCommas
            (fixLiteralNewlinesInStrings text.data)) with
        | some r3 =>
          by_cases h3 : r3 ≠ [] ∧ (tryJsonLoads r3).isSome
          · have e1 : repairJson text.data = r3 := by
              simp only [repairJson]
              rw [if_neg h0, if_neg h1, if_neg h2, hft]
              dsimp only
              rw [if_pos h3]
            rw [e1]
            unfold repairJson
            rw [if_pos h3.2]
          · have e1 : repairJson text.data
                = fixLiteralNewlinesInStrings text.data := by
              simp only [repairJson]
              rw [if_neg h0, if_neg h1, if_neg h2, hft]
              dsimp only
              rw [if_neg h3]
            rw [e1]
            simp only [repairJson, hfix]
            rw [if_neg h1, if_neg h2, hft]
            dsimp only
            rw [if_neg h3, ite_self]
        | none =>
          have e1 : repairJson text.data
              = fixLiteralNewlinesInStrings text.data := by
            simp only [repairJson]
            rw [if_neg h0, if_neg h1, if_neg h2, hft]
          rw [e1]
          simp only [repairJson, hfix]
          rw [if_neg h1, if_neg h2, hft]
          dsimp only
          rw [ite_self]


/-! ## Python value helpers over decoded JSON -/

/-- `dict` lookup for a JSON object member list: a Python dict built from
JSON keeps the **last** occurrence of a duplicated key. -/
def pyDictGet : List (String × JVal) → String → Option JVal
  | [], _ => none
  | m :: rest, k =>
    match pyDictGet rest k with
    | some r => some r
    | none => if m.1 = k then some m.2 else none

/-- `d.get(k, default)`. -/
def pyGetD (ms : List (String × JVal)) (k : String) (d : JVal) : JVal :=
  (pyDictGet ms k).getD d

/-- `d.get(k)`: Python returns `None` both for a missing key and for a
stored `null`, which `JVal.jnull` models. -/
def pyGetNone (ms : List (String × JVal)) (k : String) : JVal :=
  (pyDictGet ms k).getD JVal.jnull

/-- `k in d`. -/
def pyHasKey (ms : List (String × JVal)) (k : String) : Bool :=
  ms.any (fun m => m.1 == k)

def digitChar (d : Nat) : Char :=
  if d = 0 then '0' else if d = 1 then '1' else if d = 2 then '2'
  else if d = 3 then '3' else if d = 4 then '4' else if d = 5 then '5'
  else if d = 6 then '6' else if d = 7 then '7' else if d = 8 then '8'
  else '9'

/-- Decimal digits, most significant first; the fuel (`n + 1` at the top
call) bounds the digit count and cannot run out. -/
def natDigitsGo : Nat → Nat → List Char → List Char
  | 0, _, acc => acc
  | fuel + 1, n, acc =>
    if n < 10 then digitChar n :: acc
    else natDigitsGo fuel (n / 10) (digitChar (n % 10) :: acc)

def natDigits (n : Nat) : List Char := natDigitsGo (n + 1) n []

def natStr (n : Nat) : String := String.mk (natDigits n)

def intStr (n : Int) : String :=
  if n < 0 then "-" ++ natStr n.natAbs else natStr n.toNat

/-- Truthiness of a float by its JSON lexeme: zero iff it has digits and
every mantissa digit is `0` (`NaN` and `Infinity` have no digits and are
truthy). -/
def floatLexTruthy (lex : String) : Bool :=
  let mant := lex.data.takeWhile (fun c => !(c = 'e' || c = 'E'))
  if mant.any Char.isDigit then
    mant.any (fun c => c.isDigit && !(c = '0'))
  else true

/-- Python truthiness of a decoded JSON value. -/
def pyTruthy : JVal → Bool
  | .jnull => false
  | .jbool b => b
  | .jnum n => decide (n ≠ 0)
  | .jnumF lex => floatLexTruthy lex
  | .jstr s => decide (s ≠ "")
  | .jarr es => !es.isEmpty
  | .jobj ms => !ms.isEmpty

def squote : String := String.mk [Char.ofNat 39]

def pyTypeName : JVal → String
  | .jnull => "NoneType"
  | .jbool _ => "bool"
  | .jnum _ => "int"
  | .jnumF _ => "float"
  | .jstr _ => "str"
  | .jarr _ => "list"
  | .jobj _ => "dict"

mutual

/-- Python `str()` of a decoded JSON value (float and container rendering
approximate CPython formatting; the engine only ever renders scalars that
well-formed LLM output produces as strings). -/
def pyStrOf : JVal → String
  | .jnull => "None"
  | .jbool b => if b then "True" else "False"
  | .jnum n => intStr n
  | .jnumF lex => lex
  | .jstr s => s
  | .jarr es => "[" ++ pyReprList es ++ "]"
  | .jobj ms => "\x7b" ++ pyReprMembers ms ++ "\x7d"

/-- Python `repr()` (strings quoted; escaping inside them not modelled). -/
def pyReprOf : JVal → String
  | .jnull => "None"
  | .jbool b => if b then "True" else "False"
  | .jnum n => intStr n
  | .jnumF lex => lex
  | .jstr s => squote ++ s ++ squote
  | .jarr es => "[" ++ pyReprList es ++ "]"
  | .jobj ms => "\x7b" ++ pyReprMembers ms ++ "\x7d"

def pyReprList : List JVal → String
  | [] => ""
  | [v] => pyReprOf v
  | v :: rest => pyReprOf v ++ ", " ++ pyReprList rest

def pyReprMembers : List (String × JVal) → String
  | [] => ""
  | [(k, v)] => squote ++ k ++ squote ++ ": " ++ pyReprOf v
  | (k, v) :: rest =>
    squote ++ k ++ squote ++ ": " ++ pyReprOf v ++ ", " ++ pyReprMembers rest

end

/-- The engine's typed records store strings where Python stores whatever
value the LLM produced; a non-string value is kept as its `str()` rendering,
which compares unequal to every status and path literal the engine tests
against, exactly as the foreign Python value would. -/
def jvAsStr : JVal → String
  | .jstr s => s
  | v => pyStrOf v

/-! ## Regex and substring models (`parsing.py` uses `re` and `str.find`) -/

def tripleBacktick : List Char := "```".data

/-- Index of the first occurrence of a literal (Python `str.find`). -/
def findLitIdx (lit : List Char) : List Char → Option Nat
  | [] => if lit = [] then some 0 else none
  | c :: rest =>
    if lit.isPrefixOf (c :: rest) then some 0
    else (findLitIdx lit rest).map (· + 1)

/-- Index of the last occurrence of a literal (Python `str.rfind`). -/
def rfindLitIdx (lit : List Char) : List Char → Option Nat
  | [] => if lit = [] then some 0 else none
  | c :: rest =>
    match rfindLitIdx lit rest with
    | some i => some (i + 1)
    | none => if lit.isPrefixOf (c :: rest) then some 0 else none

def dropLit (lit : List Char) (l : List Char) : Option (List Char) :=
  if lit.isPrefixOf l then some (l.drop lit.length) else none

def findIdxOfChar (c : Char) (l : List Char) : Option Nat :=
  l.findIdx? (fun x => x == c)

def rfindIdxOfChar (c : Char) (l : List Char) : Option Nat :=
  (l.reverse.findIdx? (fun x => x == c)).map (fun i => l.length - 1 - i)

/-- `l[s:e]`. -/
def sliceList (l : List Char) (s e : Nat) : List Char :=
  (l.drop s).take (e - s)

/-- One round of the fence regex
`` ```(?:json)?\s*\n?([\s\S]*?)``` ``: the leftmost match opens at the
first triple backtick; an optional `json` tag and the whitespace run after
it are consumed greedily, and the lazy group ends at the next triple
backtick (`none` when no closing fence follows — no later start can succeed
either, since the consumed characters contain no backtick). -/
def fenceInner (l : List Char) : Option (List Char) :=
  match findLitIdx tripleBacktick l with
  | none => none
  | some i =>
    let after := l.drop (i + 3)
    let after2 := match dropLit "json".data after with
                  | some r => r
                  | none => after
    let after3 := after2.dropWhile isRegexWs
    match findLitIdx tripleBacktick after3 with
    | none => none
    | some j => some (after3.take j)

/-- The body of `_strip_markdown_fences`: up to three rounds, each kept only
when the stripped fence content is non-empty and starts with `{` or `[` or
holds a quote in its first 20 characters. -/
def stripFencesLoop : Nat → List Char → List Char
  | 0, r => r
  | k + 1, r =>
    match fenceInner r with
    | none => r
    | some innerRaw =>
      let inner := pyStrip innerRaw
      let headOk := match inner with
                    | c :: _ => c = '{' || c = '['
                    | [] => false
      if !inner.isEmpty && (headOk || (inner.take 20).contains '"') then
        stripFencesLoop k inner
      else r

/-- `_strip_markdown_fences`. -/
def stripMarkdownFences (l : List Char) : List Char :=
  stripFencesLoop 3 l

/-- The capture `((?:[^"\\]|\\.)*)` followed by a closing quote: escape
pairs pass (except before a newline, which `.` does not match), any other
non-quote non-backslash character passes, and the group ends at the first
free quote; without a closing quote there is no match at this start. -/
def scanGroup : List Char → Option (List Char × List Char)
  | [] => none
  | '"' :: rest => some ([], rest)
  | '\\' :: [] => none
  | '\\' :: d :: rest =>
    if d = '\n' then none
    else (scanGroup rest).map (fun p => ('\\' :: d :: p.1, p.2))
  | c :: rest => (scanGroup rest).map (fun p => (c :: p.1, p.2))

/-- `"<key>"\s*:\s*"((?:[^"\\]|\\.)*)"` attempted at the head of `l`. -/
def tryKeyGroupAt (keyLit : List Char) (l : List Char) : Option (List Char) :=
  (dropLit keyLit l).bind fun r1 =>
    match r1.dropWhile isRegexWs with
    | ':' :: r3 =>
      match r3.dropWhile isRegexWs with
      | '"' :: r5 => (scanGroup r5).map (fun p => p.1)
      | _ => none
    | _ => none

/-- `re.search` for the quoted-value pattern: leftmost start wins. -/
def findKeyGroup (keyLit : List Char) : List Char → Option (List Char)
  | [] => none
  | c :: rest =>
    match tryKeyGroupAt keyLit (c :: rest) with
    | some g => some g
    | none => findKeyGroup keyLit rest

/-- `"<key>"\s*:\s*\[` attempted at the head of `l`; on a match, the
remainder just after the `[`. -/
def tryArrStartAt (keyLit : List Char) (l : List Char) : Option (List Char) :=
  (dropLit keyLit l).bind fun r1 =>
    match r1.dropWhile isRegexWs with
    | ':' :: r3 =>
      match r3.dropWhile isRegexWs with
      | '[' :: r5 => some r5
      | _ => none
    | _ => none

def findArrStart (keyLit : List Char) : List Char → Option (List Char)
  | [] => none
  | c :: rest =>
    match tryArrStartAt keyLit (c :: rest) with
    | some r => some r
    | none => findArrStart keyLit rest

/-- `"status"\s*:\s*"([^"]+)"` attempted at the head of `l` (the group is a
non-empty run of non-quote characters with no escape handling). -/
def tryStatusAt (l : List Char) : Option (List Char) :=
  (dropLit "\"status\"".data l).bind fun r1 =>
    match r1.dropWhile isRegexWs with
    | ':' :: r3 =>
      match r3.dropWhile isRegexWs with
      | '"' :: r5 =>
        let run := r5.takeWhile (fun c => !(c = '"'))
        if run.isEmpty then none
        else
          match r5.dropWhile (fun c => !(c = '"')) with
          | '"' :: _ => some run
          | _ => none
      | _ => none
    | _ => none

def findStatusGroup : List Char → Option (List Char)
  | [] => none
  | c :: rest =>
    match tryStatusAt (c :: rest) with
    | some g => some g
    | none => findStatusGroup rest

/-! ## Planner response parsing (`parsing.py`) -/

/-- A raw task as `_dict_to_raw` builds it: every field holds whatever
Python value the decoded JSON supplied (`jnull` doubles as `None`, for a
missing key as well as for an explicit `null`). -/
structure RawTaskV where
  id : JVal
  description : JVal
  scope : JVal
  acceptance : JVal
  priority : JVal
  team : JVal

structure PlannerResponseV where
  scratchpad : JVal
  tasks : List RawTaskV

/-- `_dict_to_raw`. -/
def dictToRawV (ms : List (String × JVal)) : RawTaskV :=
  { id := pyGetNone ms "id"
    description := pyGetD ms "description" (JVal.jstr "")
    scope := pyGetNone ms "scope"
    acceptance := pyGetNone ms "acceptance"
    priority := pyGetNone ms "priority"
    team := pyGetNone ms "team" }

/-- `_dict_to_raw(t) if isinstance(t, dict)`. -/
def jvalToRawV : JVal → Option RawTaskV
  | .jobj ms => some (dictToRawV ms)
  | _ => none

/-- The inner string skip of the salvage walk (`parsing.py`, lines 209-218):
after an opening quote, an escaping backslash skips two characters and the
closing quote is consumed; returns the consumed characters and the rest. -/
def skipStringPlanner : List Char → List Char × List Char
  | [] => ([], [])
  | '"' :: rest => (['"'], rest)
  | '\\' :: [] => (['\\'], [])
  | '\\' :: d :: rest =>
    let p := skipStringPlanner rest
    ('\\' :: d :: p.1, p.2)
  | c :: rest =>
    let p := skipStringPlanner rest
    (c :: p.1, p.2)

theorem skipStringPlanner_rest_le :
    ∀ l : List Char, (skipStringPlanner l).2.length ≤ l.length
  | [] => by simp [skipStringPlanner]
  | '"' :: rest => by simp [skipStringPlanner]
  | '\\' :: [] => by simp [skipStringPlanner]
  | '\\' :: d :: rest => by
    simp only [skipStringPlanner]
    have := skipStringPlanner_rest_le rest
    simp only [List.length_cons]
    omega
  | c :: rest => by
    by_cases hq : c = '"'
    · subst hq; simp [skipStringPlanner]
    · by_cases hb : c = '\\'
      · subst hb
        cases rest with
        | nil => simp [skipStringPlanner]
        | cons d r2 =>
          simp only [skipStringPlanner]
          have := skipStringPlanner_rest_le r2
          simp only [List.length_cons]
          omega
      · rw [show skipStringPlanner (c :: rest)
            = ((c :: (skipStringPlanner rest).1, (skipStringPlanner rest).2))
            from by rw [skipStringPlanner.eq_def]; split <;> simp_all]
        have := skipStringPlanner_rest_le rest
        simp only [List.length_cons]
        omega

/-- Decode one salvaged `{...}` candidate: direct parse, then the repair
cascade; kept when it is an object with a truthy `description`. -/
def salvageTask (objChars : List Char) : Option RawTaskV :=
  let raw := match tryJsonLoads objChars with
             | some v => some v
             | none => tryJsonLoads (repairJson objChars)
  match raw with
  | some (JVal.jobj ms) =>
    if pyTruthy (pyGetNone ms "description") then some (dictToRawV ms)
    else none
  | _ => none

/-- The brace-matching walk of `_salvage_truncated_response`, with the slice
bookkeeping (`obj_start`) carried as an optional capture buffer: a `{` at
depth 0 opens a capture, the `}` closing it back to depth 0 emits the
candidate, string literals are skipped whole, and unbalanced closers may
drive the depth negative exactly as in the source. -/
def salvageWalkGo : Nat → List Char → Int → Option (List Char) →
    List RawTaskV → List RawTaskV
  | 0, _, _, _, acc => acc
  | _ + 1, [], _, _, acc => acc
  | fuel + 1, '"' :: rest, depth, buf, acc =>
    let p := skipStringPlanner rest
    salvageWalkGo fuel p.2 depth (buf.map (fun b => b ++ '"' :: p.1)) acc
  | fuel + 1, '{' :: rest, depth, buf, acc =>
    if depth = 0 then salvageWalkGo fuel rest 1 (some ['{']) acc
    else salvageWalkGo fuel rest (depth + 1) (buf.map (fun b => b ++ ['{'])) acc
  | fuel + 1, '}' :: rest, depth, buf, acc =>
    if depth - 1 = 0 then
      match buf with
      | some b =>
        match salvageTask (b ++ ['}']) with
        | some t => salvageWalkGo fuel rest (depth - 1) none (acc ++ [t])
        | none => salvageWalkGo fuel rest (depth - 1) none acc
      | none => salvageWalkGo fuel rest (depth - 1) none acc
    else salvageWalkGo fuel rest (depth - 1) (buf.map (fun b => b ++ ['}'])) acc
  | fuel + 1, c :: rest, depth, buf, acc =>
    salvageWalkGo fuel rest depth (buf.map (fun b => b ++ [c])) acc

/-- The walk started with fuel `length + 1`, which cannot run out since
every step consumes at least one character. -/
def salvageWalk (l : List Char) (depth : Int) (buf : Option (List Char))
    (acc : List RawTaskV) : List RawTaskV :=
  salvageWalkGo (l.length + 1) l depth buf acc

/-- `_salvage_truncated_response`. -/
def salvageTruncatedResponse (content : List Char) : PlannerResponseV :=
  let scratch : JVal :=
    match findKeyGroup "\"scratchpad\"".data content with
    | some g =>
      match tryJsonLoads ('"' :: g ++ ['"']) with
      | some v => v
      | none => JVal.jstr (String.mk g)
    | none => JVal.jstr ""
  match findArrStart "\"tasks\"".data content with
  | none => { scratchpad := scratch, tasks := [] }
  | some remainder =>
    { scratchpad := scratch, tasks := salvageWalk remainder 0 none [] }

/-- `parse_llm_task_array`: a raised decode error or a non-list value is
`none` (the caller catches the exception). -/
def parseLlmTaskArray (content : List Char) : Option (List RawTaskV) :=
  let cleaned := pyStrip content
  let cleaned :=
    if startsWithLit cleaned tripleBacktick then
      match findIdxOfChar '\n' cleaned, rfindLitIdx tripleBacktick cleaned with
      | some fnl, some lbt =>
        if lbt > fnl then pyStrip (sliceList cleaned (fnl + 1) lbt) else cleaned
      | _, _ => cleaned
    else cleaned
  let cleaned2 :=
    match findIdxOfChar '[' cleaned, rfindIdxOfChar ']' cleaned with
    | some s, some e => if e > s then sliceList cleaned s (e + 1) else cleaned
    | _, _ => cleaned
  let parsed := match tryJsonLoads cleaned2 with
                | some v => some v
                | none => tryJsonLoads (repairJson cleaned2)
  match parsed with
  | some (JVal.jarr l) => some (l.filterMap jvalToRawV)
  | _ => none

/-- `parse_planner_response`. -/
def parsePlannerResponse (content : String) : PlannerResponseV :=
  let cleaned := stripMarkdownFences (pyStrip content.data)
  let direct : Option PlannerResponseV :=
    match findIdxOfChar '{' cleaned, rfindIdxOfChar '}' cleaned with
    | some s, some e =>
      if s < e then
        let candidate := sliceList cleaned s (e + 1)
        let parsed := match tryJsonLoads candidate with
                      | some v => some v
                      | none => tryJsonLoads (repairJson candidate)
        match parsed with
        | some (JVal.jobj ms) =>
          match pyGetNone ms "tasks" with
          | JVal.jarr ts =>
            some { scratchpad := pyGetD ms "scratchpad" (JVal.jstr "")
                   tasks := ts.filterMap jvalToRawV }
          | _ => none
        | _ => none
      else none
    | _, _ => none
  match direct with
  | some r => r
  | none =>
    let salvaged := salvageTruncatedResponse content.data
    if !salvaged.tasks.isEmpty then salvaged
    else
      match parseLlmTaskArray content.data with
      | some ts => { scratchpad := JVal.jstr "", tasks := ts }
      | none => { scratchpad := JVal.jstr "", tasks := [] }

/-! ## Worker response parsing (`parsing.py`) -/

structure WorkerResultV where
  handoff : Handoff
  file_operations : List FileOperation

/-- Python iteration over a decoded JSON value (`none` is the `TypeError`):
a string iterates its characters, a dict its keys, scalars raise. -/
def jvIterate : JVal → Option (List JVal)
  | .jarr es => some es
  | .jstr s => some (s.data.map (fun c => JVal.jstr (String.mk [c])))
  | .jobj ms => some (ms.map (fun m => JVal.jstr m.1))
  | _ => none

def iterErrMsg (v : JVal) : String :=
  squote ++ pyTypeName v ++ squote ++ " object is not iterable"

def attrGetErrMsg (v : JVal) : String :=
  squote ++ pyTypeName v ++ squote ++ " object has no attribute "
    ++ squote ++ "get" ++ squote

/-- `_make_failure_result`. -/
def makeFailureResult (taskId reason : String) : WorkerResultV :=
  { handoff :=
      { task_id := taskId, status := "failed", summary := reason
        files_changed := [], concerns := [reason], suggestions := []
        metrics := { files_created := 0, files_modified := 0
                     tokens_used := 0, duration_ms := 0 } }
    file_operations := [] }

/-- Decode one salvaged file-operation candidate. -/
def salvageFileOp (objChars : List Char) : Option FileOperation :=
  let raw := match tryJsonLoads objChars with
             | some v => some v
             | none => tryJsonLoads (repairJson objChars)
  match raw with
  | some (JVal.jobj ms) =>
    if pyHasKey ms "path" && pyHasKey ms "content" then
      some { path := jvAsStr (pyGetNone ms "path")
             content := jvAsStr (pyGetNone ms "content") }
    else none
  | _ => none

/-- The brace-matching walk of `_salvage_worker_response` (strategy 1): an
`in_string` flag with escape skipping, capture of depth-0 `{...}`
candidates, and a stop at a `]` seen at depth 0. -/
def workerWalk : List Char → Bool → Int → Option (List Char) →
    List FileOperation → List FileOperation
  | [], _, _, _, acc => acc
  | c :: rest, true, depth, buf, acc =>
    if c = '\\' then
      match rest with
      | [] => acc
      | d :: r2 => workerWalk r2 true depth (buf.map (fun b => b ++ ['\\', d])) acc
    else if c = '"' then
      workerWalk rest false depth (buf.map (fun b => b ++ ['"'])) acc
    else workerWalk rest true depth (buf.map (fun b => b ++ [c])) acc
  | c :: rest, false, depth, buf, acc =>
    if c = '"' then
      workerWalk rest true depth (buf.map (fun b => b ++ ['"'])) acc
    else if c = '{' then
      if depth = 0 then workerWalk rest false 1 (some ['{']) acc
      else workerWalk rest false (depth + 1) (buf.map (fun b => b ++ ['{'])) acc
    else if c = '}' then
      if depth - 1 = 0 then
        match buf with
        | some b =>
          match salvageFileOp (b ++ ['}']) with
          | some fo => workerWalk rest false (depth - 1) none (acc ++ [fo])
          | none => workerWalk rest false (depth - 1) none acc
        | none => workerWalk rest false (depth - 1) none acc
      else workerWalk rest false (depth - 1) (buf.map (fun b => b ++ ['}'])) acc
    else if c = ']' then
      if depth = 0 then acc
      else workerWalk rest false depth (buf.map (fun b => b ++ [']'])) acc
    else workerWalk rest false depth (buf.map (fun b => b ++ [c])) acc

/-- The fallback pattern
`\{\s*"path"\s*:\s*"([^"]+)"\s*,\s*"content"\s*:\s*"` attempted at the head
of `l`: on a match, the path group and the rest just after the opening quote
of the content (the match end, where both the content scan and the next
`finditer` round start). -/
def tryPathContentAt (l : List Char) : Option (List Char × List Char) :=
  match l with
  | '{' :: r0 =>
    (dropLit "\"path\"".data (r0.dropWhile isRegexWs)).bind fun r2 =>
      match r2.dropWhile isRegexWs with
      | ':' :: r3 =>
        match r3.dropWhile isRegexWs with
        | '"' :: r4 =>
          let run := r4.takeWhile (fun c => !(c = '"'))
          if run.isEmpty then none
          else
            match r4.dropWhile (fun c => !(c = '"')) with
            | '"' :: r5 =>
              match r5.dropWhile isRegexWs with
              | ',' :: r7 =>
                (dropLit "\"content\"".data
                    (r7.dropWhile isRegexWs)).bind fun r9 =>
                  match r9.dropWhile isRegexWs with
                  | ':' :: r10 =>
                    match r10.dropWhile isRegexWs with
                    | '"' :: r11 => some (run, r11)
                    | _ => none
                  | _ => none
              | _ => none
            | _ => none
        | _ => none
      | _ => none
  | _ => none

/-- `_find_string_end`, as the scanned raw content: escape pairs pass, the
first free quote ends it, and at the end of input everything is taken. -/
def takeToStringEnd : List Char → List Char
  | [] => []
  | '"' :: _ => []
  | '\\' :: [] => ['\\']
  | '\\' :: d :: rest => '\\' :: d :: takeToStringEnd rest
  | c :: rest => c :: takeToStringEnd rest

/-- Two-character sequence replacement (Python `str.replace`, leftmost and
non-overlapping). -/
def replacePair (x y repl : Char) : List Char → List Char
  | [] => []
  | [a] => [a]
  | a :: b :: rest =>
    if a = x ∧ b = y then repl :: replacePair x y repl rest
    else a :: replacePair x y repl (b :: rest)

/-- Decode a salvaged content group: `json.loads` of the re-quoted text,
else the crude `\n`/`\t` unescaping. -/
def contentDecode (raw : List Char) : String :=
  match tryJsonLoads ('"' :: raw ++ ['"']) with
  | some (JVal.jstr s) => s
  | some v => pyStrOf v
  | none => String.mk (replacePair '\\' 't' '\t' (replacePair '\\' 'n' '\n' raw))

/-- Strategy 2 of `_salvage_worker_response`: `re.finditer` over the
path/content pattern; an empty content (`end == start`) is skipped; each
round resumes at the match end.  The fuel starts at `length + 1` and cannot
run out, since every round consumes at least one character. -/
def regexFallbackOps : Nat → List Char → List FileOperation
  | 0, _ => []
  | _ + 1, [] => []
  | fuel + 1, c :: rest =>
    match tryPathContentAt (c :: rest) with
    | some (path, r11) =>
      let raw := takeToStringEnd r11
      if raw.isEmpty then regexFallbackOps fuel r11
      else { path := String.mk path, content := contentDecode raw }
        :: regexFallbackOps fuel r11
    | none => regexFallbackOps fuel rest

/-- `_salvage_worker_response`. -/
def salvageWorkerResponse (content : List Char) (taskId : String) :
    WorkerResultV :=
  let ops1 := match findArrStart "\"file_operations\"".data content with
              | some remainder => workerWalk remainder false 0 none []
              | none => []
  let ops := if ops1.isEmpty then regexFallbackOps (content.length + 1) content
             else ops1
  let status0 := if ops.isEmpty then "failed" else "partial"
  let summary0 := "Salvaged " ++ natStr ops.length
    ++ " file operations from malformed response"
  let status := match findStatusGroup content with
                | some g => String.mk g
                | none => status0
  let summary := match findKeyGroup "\"summary\"".data content with
                 | some g =>
                   match tryJsonLoads ('"' :: g ++ ['"']) with
                   | some (JVal.jstr s) => s
                   | some v => pyStrOf v
                   | none => String.mk g
                 | none => summary0
  { handoff :=
      { task_id := taskId, status := status, summary := summary
        files_changed := ops.map FileOperation.path
        concerns := ["Worker response was malformed — salvaged what was possible"]
        suggestions := []
        metrics := { files_created := 0, files_modified := 0
                     tokens_used := 0, duration_ms := 0 } }
    file_operations := ops }

/-- `parse_worker_response`: an `Except.error` is an exception the function
lets escape (the dynamic `handoff_raw.get` on a non-dict, or iterating a
non-iterable), which the worker's generic handler turns into a failure
handoff. -/
def parseWorkerResponse (content : String) (taskId : String) :
    Except String WorkerResultV :=
  let cleaned := stripMarkdownFences (pyStrip content.data)
  match findIdxOfChar '{' cleaned, rfindIdxOfChar '}' cleaned with
  | some s, some e =>
    if s < e then
      let candidate := sliceList cleaned s (e + 1)
      let parsed := match tryJsonLoads candidate with
                    | some v => some v
                    | none => tryJsonLoads (repairJson candidate)
      match parsed with
      | none => Except.ok (salvageWorkerResponse content.data taskId)
      | some (JVal.jobj ms) =>
        let handoffRaw := pyGetD ms "handoff" (JVal.jobj [])
        match handoffRaw with
        | JVal.jobj hms =>
          match jvIterate (pyGetD hms "files_changed" (JVal.jarr [])) with
          | none => Except.error (iterErrMsg (pyGetD hms "files_changed" (JVal.jarr [])))
          | some fc =>
            match jvIterate (pyGetD hms "concerns" (JVal.jarr [])) with
            | none => Except.error (iterErrMsg (pyGetD hms "concerns" (JVal.jarr [])))
            | some cns =>
              match jvIterate (pyGetD hms "suggestions" (JVal.jarr [])) with
              | none => Except.error (iterErrMsg (pyGetD hms "suggestions" (JVal.jarr [])))
              | some sgs =>
                match jvIterate (pyGetD ms "file_operations" (JVal.jarr [])) with
                | none => Except.error (iterErrMsg (pyGetD ms "file_operations" (JVal.jarr [])))
                | some fops =>
                  Except.ok
                    { handoff :=
                        { task_id := taskId
                          status := jvAsStr (pyGetD hms "status" (JVal.jstr "complete"))
                          summary := jvAsStr (pyGetD hms "summary" (JVal.jstr ""))
                          files_changed := fc.map pyStrOf
                          concerns := cns.map pyStrOf
                          suggestions := sgs.map pyStrOf
                          metrics := { files_created := 0, files_modified := 0
                                       tokens_used := 0, duration_ms := 0 } }
                      file_operations := fops.filterMap (fun op =>
                        match op with
                        | JVal.jobj oms =>
                          if pyHasKey oms "path" && pyHasKey oms "content" then
                            some { path := jvAsStr (pyGetNone oms "path")
                                   content := jvAsStr (pyGetNone oms "content") }
                          else none
                        | _ => none) }
        | _ => Except.error (attrGetErrMsg handoffRaw)
      | some _ => Except.ok (salvageWorkerResponse content.data taskId)
    else Except.ok (makeFailureResult taskId "No JSON object in worker response")
  | _, _ => Except.ok (makeFailureResult taskId "No JSON object in worker response")

/-! ## Worker executor (`worker.py`)

`_execute_single` is modelled against an environment that supplies the
outcomes of its effects: the two possible LLM calls (the second is the one
retry after a rate limit), any exception raised while applying file
operations to disk (OSError from `mkdir`/`write_text`), and the wall-clock
durations measured at the two points where a handoff is finished.  Prompt
construction and the project-state read only feed the LLM call, which the
environment already abstracts, so they do not appear. -/

inductive WorkerErr where
  | rateLimit (msg : String)
  | other (msg : String)
deriving DecidableEq, Repr

def wErrMsg : WorkerErr → String
  | .rateLimit m => m
  | .other m => m

structure LLMResp where
  content : String
  total_tokens : Nat
deriving DecidableEq, Repr

structure WorkerEnv where
  llm1 : Except WorkerErr LLMResp
  llm2 : Except WorkerErr LLMResp
  applyErr1 : Option String
  applyErr2 : Option String
  elapsed1 : Nat
  elapsed2 : Nat

/-- `WorkerPool._failure_handoff`. -/
def failureHandoff (taskId : String) (elapsedMs : Nat) (errMsg : String) :
    Handoff :=
  { task_id := taskId
    status := "failed"
    summary := "Worker failed: " ++ errMsg
    files_changed := []
    concerns := [errMsg]
    suggestions := []
    metrics := { files_created := 0, files_modified := 0, tokens_used := 0
                 duration_ms := elapsedMs } }

/-- One parse-and-apply attempt of `_execute_single` after an LLM response
arrived: an exception escaping the parse or the file loop is caught by the
enclosing handler; otherwise the handoff metrics are filled in. -/
def workerAttempt (task : Task) (fs : List String) (resp : LLMResp)
    (applyErr : Option String) (elapsedMs : Nat) : Handoff :=
  match parseWorkerResponse resp.content task.id with
  | .error m => failureHandoff task.id elapsedMs m
  | .ok result =>
    match applyErr with
    | some m => failureHandoff task.id elapsedMs m
    | none =>
      let applied := applyFileOps fs result.file_operations
      { result.handoff with
          metrics := { tokens_used := resp.total_tokens
                       duration_ms := elapsedMs
                       files_created := applied.files_created
                       files_modified := applied.files_modified } }

/-- `WorkerPool._execute_single`: a non-rate-limit failure anywhere returns
a failure handoff; a rate limit triggers exactly one retry, whose failure of
any kind also returns a failure handoff. -/
def executeSingle (env : WorkerEnv) (fs : List String) (task : Task) :
    Handoff :=
  match env.llm1 with
  | .error (.other m) => failureHandoff task.id env.elapsed1 m
  | .error (.rateLimit _) =>
    match env.llm2 with
    | .error e => failureHandoff task.id env.elapsed2 (wErrMsg e)
    | .ok resp => workerAttempt task fs resp env.applyErr2 env.elapsed2
  | .ok resp => workerAttempt task fs resp env.applyErr1 env.elapsed1

theorem applyFileOps_nil (fs : List String) :
    applyFileOps fs [] =
      { fs := fs
        writes := []
        files_created := 0
        files_modified := 0 } := rfl

theorem applyFileOps_asset (fs : List String) (op : FileOperation)
    (rest : List FileOperation) (h : isAssetFile op.path = true) :
    applyFileOps fs (op :: rest) = applyFileOps fs rest := by
  simp only [applyFileOps]
  rw [if_pos h]

theorem applyFileOps_write (fs : List String) (op : FileOperation)
    (rest : List FileOperation) (h : isAssetFile op.path = false) :
    applyFileOps fs (op :: rest) =
      { fs := (applyFileOps (if op.path ∈ fs then fs else fs ++ [op.path]) rest).fs
        writes :=
          (op :: (applyFileOps (if op.path ∈ fs then fs else fs ++ [op.path]) rest).writes)
        files_created :=
          ((if op.path ∈ fs then 0 else 1)
            + (applyFileOps (if op.path ∈ fs then fs else fs ++ [op.path]) rest).files_created)
        files_modified :=
          ((if op.path ∈ fs then 1 else 0)
            + (applyFileOps (if op.path ∈ fs then fs else fs ++ [op.path]) rest).files_modified) } := by
  simp only [applyFileOps]
  rw [if_neg (by rw [h]; exact Bool.false_ne_true)]

theorem c5_aux : ∀ (ops : List FileOperation) (fs : List String),
    (∀ w ∈ (applyFileOps fs ops).writes, isAssetFile w.path = false) ∧
    ((applyFileOps fs ops).files_created + (applyFileOps fs ops).files_modified
      = (ops.filter (fun o => !(isAssetFile o.path))).length)
  | [], fs => by simp [applyFileOps_nil]
  | op :: rest, fs => by
    by_cases h : isAssetFile op.path
    · rw [applyFileOps_asset fs op rest h]
      have ih := c5_aux rest fs
      refine ⟨ih.1, ?_⟩
      rw [ih.2]
      simp [List.filter_cons, h]
    · rw [applyFileOps_write fs op rest (by simpa using h)]
      have ih := c5_aux rest (if op.path ∈ fs then fs else fs ++ [op.path])
      constructor
      · intro w hw
        rcases List.mem_cons.mp hw with rfl | hmem
        · simpa using h
        · exact ih.1 w hmem
      · have hfil : (op :: rest).filter (fun o => !(isAssetFile o.path))
            = op :: rest.filter (fun o => !(isAssetFile o.path)) := by
          rw [List.filter_cons]
          simp [h]
        rw [hfil]
        simp only [List.length_cons]
        have h2 := ih.2
        by_cases hex : op.path ∈ fs
        · simp only [if_pos hex] at h2 ⊢
          omega
        · simp only [if_neg hex] at h2 ⊢
          omega

/-- **C5**: the file-application loop never writes an operation whose path
has an extension in the asset set, and such operations are not counted in
the created / modified metrics (the non-asset operations are counted,
exactly one each). -/
theorem c5_asset_files_never_written (fs : List String)
    (ops : List FileOperation) :
    (∀ w ∈ (applyFileOps fs ops).writes, isAssetFile w.path = false) ∧
    ((applyFileOps fs ops).files_created + (applyFileOps fs ops).files_modified
      = (ops.filter (fun o => !(isAssetFile o.path))).length) ∧
    (∀ p, isAssetFile p = true →
      p ∉ (applyFileOps fs ops).writes.map FileOperation.path) := by
  have h := c5_aux ops fs
  refine ⟨h.1, h.2, ?_⟩
  intro p hp hmem
  rcases List.mem_map.mp hmem with ⟨w, hw, rfl⟩
  rw [h.1 w hw] at hp
  exact Bool.false_ne_true hp

def c5DemoOps : List FileOperation :=
  [{ path := "sprite.png", content := "binary" },
   { path := "main.py", content := "print(1)" }]

/-- Closed instance of `c5_asset_files_never_written` at a concrete input:
the `.png` operation is dropped, the `.py` operation is written and counted
once. -/
theorem c5_asset_files_never_written_witness :
    (∀ w ∈ (applyFileOps [] c5DemoOps).writes, isAssetFile w.path = false) ∧
    ((applyFileOps [] c5DemoOps).files_created
        + (applyFileOps [] c5DemoOps).files_modified
      = (c5DemoOps.filter (fun o => !(isAssetFile o.path))).length) ∧
    (∀ p, isAssetFile p = true →
      p ∉ (applyFileOps [] c5DemoOps).writes.map FileOperation.path) :=
  c5_asset_files_never_written [] c5DemoOps

/-- **C4**: `_execute_single` resolves every non-rate-limit exception — at
the first LLM call, at parsing (the exception `parse_worker_response` lets
escape on a malformed decoded value) or file application after either call,
and at the retried LLM call after a rate limit — into a `failed` handoff
carrying the error message in `concerns` and the measured duration, instead
of propagating it; and that failure handoff has exactly that shape. -/
theorem c4_no_exception_propagates (env : WorkerEnv) (fs : List String)
    (task : Task) :
    (∀ m, env.llm1 = Except.error (WorkerErr.other m) →
      executeSingle env fs task = failureHandoff task.id env.elapsed1 m) ∧
    (∀ m resp, env.llm1 = Except.ok resp →
      parseWorkerResponse resp.content task.id = Except.error m →
      executeSingle env fs task = failureHandoff task.id env.elapsed1 m) ∧
    (∀ m resp, env.llm1 = Except.ok resp → env.applyErr1 = some m →
      (parseWorkerResponse resp.content task.id).isOk = true →
      executeSingle env fs task = failureHandoff task.id env.elapsed1 m) ∧
    (∀ m e, env.llm1 = Except.error (WorkerErr.rateLimit m) →
      env.llm2 = Except.error e →
      executeSingle env fs task = failureHandoff task.id env.elapsed2 (wErrMsg e)) ∧
    (∀ m m2 resp, env.llm1 = Except.error (WorkerErr.rateLimit m) →
      env.llm2 = Except.ok resp →
      parseWorkerResponse resp.content task.id = Except.error m2 →
      executeSingle env fs task = failureHandoff task.id env.elapsed2 m2) ∧
    (∀ m m2 resp, env.llm1 = Except.error (WorkerErr.rateLimit m) →
      env.llm2 = Except.ok resp → env.applyErr2 = some m2 →
      (parseWorkerResponse resp.content task.id).isOk = true →
      executeSingle env fs task = failureHandoff task.id env.elapsed2 m2) ∧
    (∀ tid el m, (failureHandoff tid el m).status = "failed" ∧
      m ∈ (failureHandoff tid el m).concerns ∧
      (failureHandoff tid el m).metrics.duration_ms = el) := by
  refine ⟨?_, ?_, ?_, ?_, ?_, ?_, ?_⟩
  · intro m h1
    unfold executeSingle
    rw [h1]
  · intro m resp h1 hp
    unfold executeSingle
    rw [h1]
    dsimp only
    unfold workerAttempt
    rw [hp]
  · intro m resp h1 ha hok
    cases hp : parseWorkerResponse resp.content task.id with
    | error e => rw [hp] at hok; exact absurd hok (by simp [Except.isOk, Except.toBool])
    | ok r =>
      unfold executeSingle
      rw [h1]
      dsimp only
      unfold workerAttempt
      rw [hp]
      dsimp only
      rw [ha]
  · intro m e h1 h2
    unfold executeSingle
    rw [h1, h2]
  · intro m m2 resp h1 h2 hp
    unfold executeSingle
    rw [h1, h2]
    dsimp only
    unfold workerAttempt
    rw [hp]
  · intro m m2 resp h1 h2 ha hok
    cases hp : parseWorkerResponse resp.content task.id with
    | error e => rw [hp] at hok; exact absurd hok (by simp [Except.isOk, Except.toBool])
    | ok r =>
      unfold executeSingle
      rw [h1, h2]
      dsimp only
      unfold workerAttempt
      rw [hp]
      dsimp only
      rw [ha]
  · intro tid el m
    exact ⟨rfl, by simp [failureHandoff], rfl⟩

def c4DemoEnv : WorkerEnv :=
  { llm1 := Except.error (WorkerErr.other "boom")
    llm2 := Except.ok { content := "", total_tokens := 0 }
    applyErr1 := none, applyErr2 := none
    elapsed1 := 17, elapsed2 := 42 }

/-- An environment whose first LLM call succeeds but returns a response on
which the parse raises: the decoded `handoff` value is the integer 5, so
`handoff_raw.get` raises AttributeError. -/
def c4ParseEnv : WorkerEnv :=
  { llm1 := Except.ok { content := "\x7b\"handoff\":5\x7d", total_tokens := 3 }
    llm2 := Except.ok { content := "", total_tokens := 0 }
    applyErr1 := none, applyErr2 := none
    elapsed1 := 23, elapsed2 := 42 }

def c4ParseMsg : String :=
  squote ++ "int" ++ squote ++ " object has no attribute "
    ++ squote ++ "get" ++ squote

/-- Closed instance of `c4_no_exception_propagates` at concrete inputs: an
LLM-call failure, and a parsing exception on a malformed decoded value. -/
theorem c4_no_exception_propagates_witness :
    (c4DemoEnv.llm1 = Except.error (WorkerErr.other "boom")) ∧
    executeSingle c4DemoEnv [] c1Sub = failureHandoff c1Sub.id 17 "boom" ∧
    parseWorkerResponse "\x7b\"handoff\":5\x7d" c1Sub.id
      = Except.error c4ParseMsg ∧
    executeSingle c4ParseEnv [] c1Sub = failureHandoff c1Sub.id 23 c4ParseMsg :=
  ⟨rfl, (c4_no_exception_propagates c4DemoEnv [] c1Sub).1 "boom" rfl, rfl,
   (c4_no_exception_propagates c4ParseEnv [] c1Sub).2.1 c4ParseMsg
     { content := "\x7b\"handoff\":5\x7d", total_tokens := 3 } rfl rfl⟩

/-! ## The planner-response round trip (spec §8)

The spec states `parse(serialize(x)) == x` for planner-response values.
The serializer below is modelled from the spec's words ("the standard JSON
serialization", i.e. `json.dumps` with compact separators): the engine
itself never serializes planner responses. -/

/-- A planner-response value: a string scratchpad and a list of task
records with the fields of `RawTaskInput`. -/
structure PlannerValue where
  scratchpad : String
  tasks : List RawTaskInput

def hexDigitChar (d : Nat) : Char :=
  if d < 10 then digitChar d
  else if d = 10 then 'a'
  else if d = 11 then 'b'
  else if d = 12 then 'c'
  else if d = 13 then 'd'
  else if d = 14 then 'e'
  else 'f'

/-- Modelled from the spec: JSON string-character encoding — quote,
backslash, newline, carriage return and tab as two-character escapes, other
control characters as `\u00XX`, everything else verbatim. -/
def encodeChar (c : Char) : List Char :=
  if c = '"' then ['\\', '"']
  else if c = '\\' then ['\\', '\\']
  else if c = '\n' then ['\\', 'n']
  else if c = '\r' then ['\\', 'r']
  else if c = '\t' then ['\\', 't']
  else if c.toNat < 32 then
    ['\\', 'u', '0', '0', hexDigitChar (c.toNat / 16), hexDigitChar (c.toNat % 16)]
  else [c]

def encodeChars (l : List Char) : List Char := l.flatMap encodeChar

def dumpString (s : String) : List Char :=
  '"' :: encodeChars s.data ++ ['"']

def dumpInt (n : Int) : List Char :=
  if n < 0 then '-' :: natDigits n.natAbs else natDigits n.toNat

def dumpOptStr : Option String → List Char
  | none => "null".data
  | some s => dumpString s

def dumpOptInt : Option Int → List Char
  | none => "null".data
  | some n => dumpInt n

def dumpStrList : String → List String → List Char
  | s, [] => dumpString s
  | s, s2 :: rest => dumpString s ++ ',' :: dumpStrList s2 rest

def dumpScope : Option (List String) → List Char
  | none => "null".data
  | some [] => "[]".data
  | some (s :: rest) => '[' :: dumpStrList s rest ++ [']']

def dumpTask (t : RawTaskInput) : List Char :=
  "\x7b\"id\":".data ++ dumpOptStr t.id
    ++ ",\"description\":".data ++ dumpString t.description
    ++ ",\"scope\":".data ++ dumpScope t.scope
    ++ ",\"acceptance\":".data ++ dumpOptStr t.acceptance
    ++ ",\"priority\":".data ++ dumpOptInt t.priority
    ++ ",\"team\":".data ++ dumpOptStr t.team ++ "\x7d".data

def dumpTasks : RawTaskInput → List RawTaskInput → List Char
  | t, [] => dumpTask t
  | t, t2 :: rest => dumpTask t ++ ',' :: dumpTasks t2 rest

def dumpTasksArr : List RawTaskInput → List Char
  | [] => "[]".data
  | t :: rest => '[' :: dumpTasks t rest ++ [']']

/-- Modelled from the spec: the standard JSON serialization of a
planner-response value. -/
def serializePR (x : PlannerValue) : String :=
  String.mk ("\x7b\"scratchpad\":".data ++ dumpString x.scratchpad
    ++ ",\"tasks\":".data ++ dumpTasksArr x.tasks ++ "\x7d".data)

def optStrJ : Option String → JVal
  | none => JVal.jnull
  | some s => JVal.jstr s

def scopeJ : Option (List String) → JVal
  | none => JVal.jnull
  | some l => JVal.jarr (l.map JVal.jstr)

def optIntJ : Option Int → JVal
  | none => JVal.jnull
  | some n => JVal.jnum n

/-- The decoded-JSON form of a serialized task record, as `_dict_to_raw`
reads it back (a `null` field and a missing field coincide in Python). -/
def rawToParsed (t : RawTaskInput) : RawTaskV :=
  { id := optStrJ t.id
    description := JVal.jstr t.description
    scope := scopeJ t.scope
    acceptance := optStrJ t.acceptance
    priority := optIntJ t.priority
    team := optStrJ t.team }

def c7Bad : PlannerValue :=
  { scratchpad := "```\x7b\x7d```", tasks := [] }

/-- **C7** counterexample: a planner-response value whose scratchpad
contains a fenced JSON snippet.  Its standard serialization is valid JSON,
but `_strip_markdown_fences` fires on the backtick fence inside the string
value, replacing the whole text by the inner `\x7b\x7d`; the direct parse
then finds no `tasks` list, the salvage path recovers no tasks, and the
bare-array fallback returns an empty scratchpad — so the parsed scratchpad
is `""`, not the original one. -/
theorem c7_counterexample :
    jvAsStr (parsePlannerResponse (serializePR c7Bad)).scratchpad = "" ∧
    (parsePlannerResponse (serializePR c7Bad)).tasks = [] ∧
    c7Bad.scratchpad ≠ "" := ⟨rfl, rfl, by decide⟩

/-! ### Round-trip lemmas: strings -/

theorem hexVal_hexDigitChar (d : Nat) (h : d < 16) :
    hexVal (hexDigitChar d) = some d := by
  interval_cases d <;> rfl

theorem parseStringBody_other (c : Char) (X : List Char) (hq : c ≠ '"')
    (hb : c ≠ '\\') (hc : 32 ≤ c.toNat) :
    parseStringBody (c :: X)
      = (parseStringBody X).map (fun p => (c :: p.1, p.2)) := by
  rw [parseStringBody.eq_def]
  split
  · simp_all
  · simp_all
  · simp_all
  · simp_all
  · rename_i c2 rest2 heq
    injection heq with h1 h2
    subst h1; subst h2
    rw [if_neg (by omega)]

theorem parseStringBody_encode : ∀ (l : List Char) (rest : List Char),
    parseStringBody (encodeChars l ++ '"' :: rest) = some (l, rest)
  | [], rest => by
    simp [encodeChars, parseStringBody]
  | c :: t, rest => by
    have ih := parseStringBody_encode t rest
    show parseStringBody ((encodeChar c ++ encodeChars t) ++ '"' :: rest)
      = some (c :: t, rest)
    rw [List.append_assoc]
    by_cases h1 : c = '"'
    · subst h1
      rw [show encodeChar '"' = ['\\', '"'] from rfl]
      simp only [List.cons_append, List.nil_append]
      rw [show ∀ X : List Char, parseStringBody ('\\' :: '"' :: X)
          = (parseStringBody X).map (fun p => ('"' :: p.1, p.2))
          from fun X => rfl]
      rw [ih]
      rfl
    · by_cases h2 : c = '\\'
      · subst h2
        rw [show encodeChar '\\' = ['\\', '\\'] from rfl]
        simp only [List.cons_append, List.nil_append]
        rw [show ∀ X : List Char, parseStringBody ('\\' :: '\\' :: X)
            = (parseStringBody X).map (fun p => ('\\' :: p.1, p.2))
            from fun X => rfl]
        rw [ih]
        rfl
      · by_cases h3 : c = '\n'
        · subst h3
          rw [show encodeChar '\n' = ['\\', 'n'] from rfl]
          simp only [List.cons_append, List.nil_append]
          rw [show ∀ X : List Char, parseStringBody ('\\' :: 'n' :: X)
              = (parseStringBody X).map (fun p => ('\n' :: p.1, p.2))
              from fun X => rfl]
          rw [ih]
          rfl
        · by_cases h4 : c = '\r'
          · subst h4
            rw [show encodeChar '\r' = ['\\', 'r'] from rfl]
            simp only [List.cons_append, List.nil_append]
            rw [show ∀ X : List Char, parseStringBody ('\\' :: 'r' :: X)
                = (parseStringBody X).map (fun p => ('\r' :: p.1, p.2))
                from fun X => rfl]
            rw [ih]
            rfl
          · by_cases h5 : c = '\t'
            · subst h5
              rw [show encodeChar '\t' = ['\\', 't'] from rfl]
              simp only [List.cons_append, List.nil_append]
              rw [show ∀ X : List Char, parseStringBody ('\\' :: 't' :: X)
                  = (parseStringBody X).map (fun p => ('\t' :: p.1, p.2))
                  from fun X => rfl]
              rw [ih]
              rfl
            · by_cases h6 : c.toNat < 32
              · rw [show encodeChar c = ['\\', 'u', '0', '0',
                    hexDigitChar (c.toNat / 16), hexDigitChar (c.toNat % 16)]
                    from by
                  simp only [encodeChar, if_neg h1, if_neg h2, if_neg h3,
                    if_neg h4, if_neg h5, if_pos h6]]
                simp only [List.cons_append, List.nil_append]
                rw [show ∀ (ha hb : Char) (X : List Char),
                    parseStringBody ('\\' :: 'u' :: '0' :: '0' :: ha :: hb :: X)
                    = (match hexVal '0', hexVal '0', hexVal ha, hexVal hb with
                       | some a, some b, some cc, some d =>
                         (parseStringBody X).map (fun p =>
                           (Char.ofNat (a * 4096 + b * 256 + cc * 16 + d)
                             :: p.1, p.2))
                       | _, _, _, _ => none)
                    from fun ha hb X => rfl]
                rw [show hexVal '0' = some 0 from rfl,
                  hexVal_hexDigitChar (c.toNat / 16) (by omega),
                  hexVal_hexDigitChar (c.toNat % 16) (by omega)]
                dsimp only
                rw [ih]
                have hcode : 0 * 4096 + 0 * 256 + (c.toNat / 16) * 16
                    + c.toNat % 16 = c.toNat := by omega
                rw [hcode, Char.ofNat_toNat]
                rfl
              · rw [show encodeChar c = [c] from by
                  simp only [encodeChar, if_neg h1, if_neg h2, if_neg h3,
                    if_neg h4, if_neg h5, if_neg h6]]
                simp only [List.cons_append, List.nil_append]
                rw [parseStringBody_other c _ h1 h2 (by omega)]
                rw [ih]
                rfl

/-! ### Round-trip lemmas: numbers -/

theorem digitChar_isDigit (d : Nat) (h : d < 10) :
    (digitChar d).isDigit = true := by
  interval_cases d <;> rfl

theorem digitChar_toNat (d : Nat) (h : d < 10) :
    (digitChar d).toNat = 48 + d := by
  interval_cases d <;> rfl

theorem digitChar_ne_zero (d : Nat) (h0 : 0 < d) (h : d < 10) :
    digitChar d ≠ '0' := by
  interval_cases d <;> decide

theorem natDigitsGo_acc : ∀ (fuel n : Nat) (acc : List Char),
    natDigitsGo fuel n acc = natDigitsGo fuel n [] ++ acc
  | 0, _, _ => by simp [natDigitsGo]
  | fuel + 1, n, acc => by
    simp only [natDigitsGo]
    by_cases h : n < 10
    · rw [if_pos h, if_pos h]
      simp
    · rw [if_neg h, if_neg h]
      rw [natDigitsGo_acc fuel (n / 10) (digitChar (n % 10) :: acc),
        natDigitsGo_acc fuel (n / 10) [digitChar (n % 10)]]
      simp

theorem natDigitsGo_head : ∀ (fuel n : Nat) (acc : List Char), 0 < n →
    n < fuel → ∃ d t, natDigitsGo fuel n acc = d :: t ∧ d.isDigit = true ∧
      d ≠ '0'
  | 0, n, _, _, hf => by omega
  | fuel + 1, n, acc, h0, hf => by
    simp only [natDigitsGo]
    by_cases h : n < 10
    · rw [if_pos h]
      exact ⟨digitChar n, acc, rfl, digitChar_isDigit n h,
        digitChar_ne_zero n h0 h⟩
    · rw [if_neg h]
      exact natDigitsGo_head fuel (n / 10) (digitChar (n % 10) :: acc)
        (by omega) (by omega)

theorem natDigitsGo_all_digit : ∀ (fuel n : Nat) (acc : List Char),
    (∀ c ∈ acc, c.isDigit = true) → n < fuel →
    ∀ c ∈ natDigitsGo fuel n acc, c.isDigit = true
  | 0, n, _, _, hf => by omega
  | fuel + 1, n, acc, hacc, hf => by
    simp only [natDigitsGo]
    by_cases h : n < 10
    · rw [if_pos h]
      intro c hc
      rcases List.mem_cons.mp hc with rfl | hm
      · exact digitChar_isDigit n h
      · exact hacc c hm
    · rw [if_neg h]
      exact natDigitsGo_all_digit fuel (n / 10) (digitChar (n % 10) :: acc)
        (fun c hc => by
          rcases List.mem_cons.mp hc with rfl | hm
          · exact digitChar_isDigit (n % 10) (by omega)
          · exact hacc c hm)
        (by omega)

theorem digitsToNat_go : ∀ (n fuel : Nat), n < fuel →
    digitsToNat (natDigitsGo fuel n []) = n
  | n, fuel + 1, h => by
    simp only [natDigitsGo]
    by_cases h10 : n < 10
    · rw [if_pos h10]
      simp only [digitsToNat, List.foldl_cons, List.foldl_nil]
      rw [digitChar_toNat n h10]
      omega
    · rw [if_neg h10]
      rw [natDigitsGo_acc fuel (n / 10) [digitChar (n % 10)]]
      simp only [digitsToNat, List.foldl_append, List.foldl_cons,
        List.foldl_nil]
      have ih := digitsToNat_go (n / 10) fuel (by omega)
      simp only [digitsToNat] at ih
      rw [ih, digitChar_toNat (n % 10) (by omega)]
      omega
termination_by n _ _ => n
decreasing_by exact Nat.div_lt_self (by omega) (by omega)

theorem natDigits_head (n : Nat) (h0 : 0 < n) :
    ∃ d t, natDigits n = d :: t ∧ d.isDigit = true ∧ d ≠ '0' :=
  natDigitsGo_head (n + 1) n [] h0 (by omega)

theorem natDigits_all_digit (n : Nat) :
    ∀ c ∈ natDigits n, c.isDigit = true :=
  natDigitsGo_all_digit (n + 1) n [] (by simp) (by omega)

theorem digitsToNat_natDigits (n : Nat) : digitsToNat (natDigits n) = n :=
  digitsToNat_go n (n + 1) (by omega)

/-- The character after a serialized number may not extend the numeric
token. -/
def numDelimB : List Char → Bool
  | [] => true
  | c :: _ => !c.isDigit && !(c = '.') && !(c = 'e') && !(c = 'E')

theorem takeWhile_digits_append : ∀ (ds rest : List Char),
    (∀ c ∈ ds, c.isDigit = true) → numDelimB rest = true →
    (ds ++ rest).takeWhile Char.isDigit = ds ∧
    (ds ++ rest).dropWhile Char.isDigit = rest
  | [], rest, _, hrest => by
    cases rest with
    | nil => simp
    | cons c r =>
      simp only [numDelimB, Bool.and_eq_true, Bool.not_eq_true'] at hrest
      simp [List.takeWhile_cons, List.dropWhile_cons, hrest.1.1.1]
  | d :: ds, rest, hds, hrest => by
    have hd : d.isDigit = true := hds d (List.mem_cons_self d ds)
    have ih := takeWhile_digits_append ds rest
      (fun c hc => hds c (List.mem_cons_of_mem d hc)) hrest
    simp only [List.cons_append, List.takeWhile_cons, List.dropWhile_cons, hd]
    simp [ih.1, ih.2]

theorem finishNumber_delim (neg : Bool) (intLex : List Char) (intVal : Nat)
    (rest : List Char) (h : numDelimB rest = true) :
    finishNumber neg intLex intVal rest
      = (JVal.jnum (if neg then -(intVal : Int) else (intVal : Int)), rest) := by
  cases rest with
  | nil => cases neg <;> rfl
  | cons c r =>
    simp only [numDelimB, Bool.and_eq_true, Bool.not_eq_true'] at h
    obtain ⟨⟨⟨hdig, hdot⟩, he⟩, hE⟩ := h
    have hdot2 : c ≠ '.' := by simpa using hdot
    have he2 : c ≠ 'e' := by simpa using he
    have hE2 : c ≠ 'E' := by simpa using hE
    simp only [finishNumber]
    have hfrac : (match c :: r with
        | '.' :: r2 =>
          let fds := r2.takeWhile Char.isDigit
          if fds = [] then ([], c :: r)
          else ('.' :: fds, r2.dropWhile Char.isDigit)
        | _ => (([] : List Char), c :: r)) = (([] : List Char), c :: r) := by
      split
      · rename_i heq
        injection heq with hc _
        exact absurd hc hdot2
      · rfl
    rw [hfrac]
    dsimp only
    have hexp : (match c :: r with
        | 'e' :: r3 =>
          match r3 with
          | '+' :: r4 =>
            let eds := r4.takeWhile Char.isDigit
            if eds = [] then ([], c :: r)
            else ('e' :: '+' :: eds, r4.dropWhile Char.isDigit)
          | '-' :: r4 =>
            let eds := r4.takeWhile Char.isDigit
            if eds = [] then ([], c :: r)
            else ('e' :: '-' :: eds, r4.dropWhile Char.isDigit)
          | _ =>
            let eds := r3.takeWhile Char.isDigit
            if eds = [] then ([], c :: r)
            else ('e' :: eds, r3.dropWhile Char.isDigit)
        | 'E' :: r3 =>
          match r3 with
          | '+' :: r4 =>
            let eds := r4.takeWhile Char.isDigit
            if eds = [] then ([], c :: r)
            else ('E' :: '+' :: eds, r4.dropWhile Char.isDigit)
          | '-' :: r4 =>
            let eds := r4.takeWhile Char.isDigit
            if eds = [] then ([], c :: r)
            else ('E' :: '-' :: eds, r4.dropWhile Char.isDigit)
          | _ =>
            let eds := r3.takeWhile Char.isDigit
            if eds = [] then ([], c :: r)
            else ('E' :: eds, r3.dropWhile Char.isDigit)
        | _ => (([] : List Char), c :: r)) = (([] : List Char), c :: r) := by
      split
      · rename_i heq
        injection heq with hc _
        exact absurd hc he2
      · rename_i heq
        injection heq with hc _
        exact absurd hc hE2
      · rfl
    rw [hexp]
    rfl

theorem natDigits_cons (m : Nat) :
    ∃ d t, natDigits m = d :: t ∧ d.isDigit = true := by
  by_cases h : m = 0
  · subst h
    exact ⟨'0', [], rfl, rfl⟩
  · obtain ⟨d, t, hdt, hdig, _⟩ := natDigits_head m (by omega)
    exact ⟨d, t, hdt, hdig⟩

theorem digits_takeWhile (m : Nat) (rest : List Char)
    (h : numDelimB rest = true) :
    (natDigits m ++ rest).takeWhile Char.isDigit = natDigits m ∧
    (natDigits m ++ rest).dropWhile Char.isDigit = rest :=
  takeWhile_digits_append (natDigits m) rest (natDigits_all_digit m) h

theorem parseNumber_nat (m : Nat) (rest : List Char)
    (h : numDelimB rest = true) :
    parseNumber (natDigits m ++ rest) = some (JVal.jnum (m : Int), rest) := by
  by_cases h0 : m = 0
  · subst h0
    rw [show natDigits 0 = ['0'] from rfl, List.cons_append, List.nil_append]
    rw [show parseNumber ('0' :: rest) = some (finishNumber false ['0'] 0 rest)
      from rfl]
    rw [finishNumber_delim false ['0'] 0 rest h]
    rfl
  · obtain ⟨d, t, hdt, hdig, hne0⟩ := natDigits_head m (by omega)
    have hds := digits_takeWhile m rest h
    have hdm : d ≠ '-' := fun e => by
      rw [e] at hdig; exact absurd hdig (by decide)
    simp only [parseNumber]
    rw [hdt, List.cons_append]
    have hp : (match d :: (t ++ rest) with
        | '-' :: r => (true, r)
        | _ => (false, d :: (t ++ rest))) = (false, d :: (t ++ rest)) := by
      split
      · rename_i heq
        injection heq with h1 _
        exact absurd h1 hdm
      · rfl
    rw [hp]
    dsimp only
    have hmatch : (match d :: (t ++ rest) with
        | '0' :: r => some (finishNumber false ['0'] 0 r)
        | c :: _ =>
          if c.isDigit then
            some (finishNumber false ((d :: (t ++ rest)).takeWhile Char.isDigit)
              (digitsToNat ((d :: (t ++ rest)).takeWhile Char.isDigit))
              ((d :: (t ++ rest)).dropWhile Char.isDigit))
          else none
        | [] => none)
        = some (finishNumber false ((d :: (t ++ rest)).takeWhile Char.isDigit)
            (digitsToNat ((d :: (t ++ rest)).takeWhile Char.isDigit))
            ((d :: (t ++ rest)).dropWhile Char.isDigit)) := by
      split
      · rename_i heq
        injection heq with h1 _
        exact absurd h1 hne0
      · rename_i c rest2 heq
        injection heq with h1 _
        rw [h1] at hdig
        rw [if_pos hdig]
      · rename_i heq
        exact absurd heq (by simp)
    rw [hmatch, ← List.cons_append, ← hdt, hds.1, hds.2,
      digitsToNat_natDigits, finishNumber_delim false (natDigits m) m rest h]
    rfl

theorem parseNumber_neg (m : Nat) (rest : List Char) (hm : 0 < m)
    (h : numDelimB rest = true) :
    parseNumber ('-' :: (natDigits m ++ rest))
      = some (JVal.jnum (-(m : Int)), rest) := by
  obtain ⟨d, t, hdt, hdig, hne0⟩ := natDigits_head m hm
  have hds := digits_takeWhile m rest h
  simp only [parseNumber]
  rw [hdt, List.cons_append]
  have hmatch : (match d :: (t ++ rest) with
      | '0' :: r => some (finishNumber true ['0'] 0 r)
      | c :: _ =>
        if c.isDigit then
          some (finishNumber true ((d :: (t ++ rest)).takeWhile Char.isDigit)
            (digitsToNat ((d :: (t ++ rest)).takeWhile Char.isDigit))
            ((d :: (t ++ rest)).dropWhile Char.isDigit))
        else none
      | [] => none)
      = some (finishNumber true ((d :: (t ++ rest)).takeWhile Char.isDigit)
          (digitsToNat ((d :: (t ++ rest)).takeWhile Char.isDigit))
          ((d :: (t ++ rest)).dropWhile Char.isDigit)) := by
    split
    · rename_i heq
      injection heq with h1 _
      exact absurd h1 hne0
    · rename_i c rest2 heq
      injection heq with h1 _
      rw [h1] at hdig
      rw [if_pos hdig]
    · rename_i heq
      exact absurd heq (by simp)
  rw [hmatch, ← List.cons_append, ← hdt, hds.1, hds.2,
    digitsToNat_natDigits, finishNumber_delim true (natDigits m) m rest h]
  rfl

theorem not_isPrefixOf_head (a b : Char) (as bs : List Char) (h : a ≠ b) :
    (a :: as).isPrefixOf (b :: bs) = false := by
  simp only [List.isPrefixOf]
  rw [show (a == b) = false from beq_eq_false_iff_ne.mpr h, Bool.false_and]

theorem digit_ne (c x : Char) (h : c.isDigit = true) (hx : x.isDigit = false) :
    c ≠ x := fun e => by
  rw [e] at h
  rw [h] at hx
  exact Bool.noConfusion hx

theorem digit_not_jws (d : Char) (h : d.isDigit = true) : isJWs d = false := by
  simp only [isJWs]
  rw [decide_eq_false (digit_ne d ' ' h rfl),
    decide_eq_false (digit_ne d '\t' h rfl),
    decide_eq_false (digit_ne d '\n' h rfl),
    decide_eq_false (digit_ne d '\r' h rfl)]
  rfl

/-! ### One-step reduction equations for the scanner on concrete heads -/

theorem parseValue_obj_quote (k : Nat) (X : List Char) :
    parseValue (k + 1) ('{' :: '"' :: X)
      = (parseMembers k ('"' :: X)).map (fun p => (JVal.jobj p.1, p.2)) := rfl

theorem parseValue_arr_quote (k : Nat) (X : List Char) :
    parseValue (k + 1) ('[' :: '"' :: X)
      = (parseElems k ('"' :: X)).map (fun p => (JVal.jarr p.1, p.2)) := rfl

theorem parseValue_arr_brace (k : Nat) (X : List Char) :
    parseValue (k + 1) ('[' :: '{' :: X)
      = (parseElems k ('{' :: X)).map (fun p => (JVal.jarr p.1, p.2)) := rfl

theorem parseValue_arr_empty (k : Nat) (X : List Char) :
    parseValue (k + 1) ('[' :: ']' :: X) = some (JVal.jarr [], X) := rfl

theorem parseMembers_quote (k : Nat) (X : List Char) :
    parseMembers (k + 1) ('"' :: X)
      = (match parseStringBody X with
         | none => none
         | some (key, r1) =>
           match skipJWs r1 with
           | ':' :: r3 =>
             (match parseValue k (skipJWs r3) with
              | none => none
              | some (v, r4) =>
                match skipJWs r4 with
                | '}' :: r6 => some ([(String.mk key, v)], r6)
                | ',' :: r6 =>
                  match skipJWs r6 with
                  | '"' :: r7 =>
                    (parseMembers k ('"' :: r7)).map (fun p =>
                      ((String.mk key, v) :: p.1, p.2))
                  | _ => none
                | _ => none)
           | _ => none) := rfl

theorem parseElems_step (k : Nat) (s : List Char) :
    parseElems (k + 1) s
      = (match parseValue k s with
         | none => none
         | some (v, r1) =>
           match skipJWs r1 with
           | ']' :: r2 => some ([v], r2)
           | ',' :: r2 =>
             (parseElems k (skipJWs r2)).map (fun p => (v :: p.1, p.2))
           | _ => none) := rfl

/-! ### Leaf values parse back -/

theorem parseValue_nullLit (f : Nat) (rest : List Char) :
    parseValue (f + 1) ("null".data ++ rest) = some (JVal.jnull, rest) := by
  rw [show ("null".data ++ rest : List Char) = 'n' :: 'u' :: 'l' :: 'l' :: rest
    from rfl]
  simp only [parseValue]
  rw [if_neg (by decide), if_neg (by decide), if_neg (by decide)]
  rw [show startsWithLit ('n' :: 'u' :: 'l' :: 'l' :: rest) "null".data = true
    from by
      rw [startsWithLit, show ("null".data : List Char) = ['n', 'u', 'l', 'l']
        from rfl]
      simp [List.isPrefixOf]]
  rw [if_pos rfl]
  rfl

theorem parseValue_str (f : Nat) (s : String) (rest : List Char) :
    parseValue (f + 1) (dumpString s ++ rest) = some (JVal.jstr s, rest) := by
  have h : dumpString s ++ rest = '"' :: (encodeChars s.data ++ '"' :: rest) := by
    simp [dumpString, List.append_assoc]
  rw [h]
  rw [show ∀ X : List Char, parseValue (f + 1) ('"' :: X)
      = (parseStringBody X).map (fun p => (JVal.jstr (String.mk p.1), p.2))
      from fun X => rfl]
  rw [parseStringBody_encode s.data rest]
  rfl

theorem parseValue_int (f : Nat) (n : Int) (rest : List Char)
    (h : numDelimB rest = true) :
    parseValue (f + 1) (dumpInt n ++ rest) = some (JVal.jnum n, rest) := by
  by_cases hn : n < 0
  · rw [show dumpInt n = '-' :: natDigits n.natAbs from by
      simp only [dumpInt]; rw [if_pos hn]]
    rw [List.cons_append]
    simp only [parseValue]
    rw [if_neg (by decide), if_neg (by decide), if_neg (by decide)]
    have hnul : startsWithLit ('-' :: (natDigits n.natAbs ++ rest)) "null".data
        = false := by
      rw [startsWithLit, show ("null".data : List Char) = 'n' :: "ull".data
        from rfl]
      exact not_isPrefixOf_head 'n' '-' _ _ (by decide)
    have htru : startsWithLit ('-' :: (natDigits n.natAbs ++ rest)) "true".data
        = false := by
      rw [startsWithLit, show ("true".data : List Char) = 't' :: "rue".data
        from rfl]
      exact not_isPrefixOf_head 't' '-' _ _ (by decide)
    have hfls : startsWithLit ('-' :: (natDigits n.natAbs ++ rest)) "false".data
        = false := by
      rw [startsWithLit, show ("false".data : List Char) = 'f' :: "alse".data
        from rfl]
      exact not_isPrefixOf_head 'f' '-' _ _ (by decide)
    rw [hnul, if_neg Bool.false_ne_true, htru, if_neg Bool.false_ne_true,
      hfls, if_neg Bool.false_ne_true]
    rw [parseNumber_neg n.natAbs rest (Int.natAbs_pos.mpr (by omega)) h]
    dsimp only
    rw [show -((n.natAbs : Nat) : Int) = n from by omega]
  · rw [show dumpInt n = natDigits n.toNat from by
      simp only [dumpInt]; rw [if_neg hn]]
    obtain ⟨d, t2, hdt, hdig⟩ := natDigits_cons n.toNat
    rw [hdt, List.cons_append]
    simp only [parseValue]
    rw [if_neg (digit_ne d '"' hdig rfl), if_neg (digit_ne d '{' hdig rfl),
      if_neg (digit_ne d '[' hdig rfl)]
    have hnul : startsWithLit (d :: (t2 ++ rest)) "null".data = false := by
      rw [startsWithLit, show ("null".data : List Char) = 'n' :: "ull".data
        from rfl]
      exact not_isPrefixOf_head 'n' d _ _ (Ne.symm (digit_ne d 'n' hdig rfl))
    have htru : startsWithLit (d :: (t2 ++ rest)) "true".data = false := by
      rw [startsWithLit, show ("true".data : List Char) = 't' :: "rue".data
        from rfl]
      exact not_isPrefixOf_head 't' d _ _ (Ne.symm (digit_ne d 't' hdig rfl))
    have hfls : startsWithLit (d :: (t2 ++ rest)) "false".data = false := by
      rw [startsWithLit, show ("false".data : List Char) = 'f' :: "alse".data
        from rfl]
      exact not_isPrefixOf_head 'f' d _ _ (Ne.symm (digit_ne d 'f' hdig rfl))
    rw [hnul, if_neg Bool.false_ne_true, htru, if_neg Bool.false_ne_true,
      hfls, if_neg Bool.false_ne_true]
    rw [← List.cons_append, ← hdt, parseNumber_nat n.toNat rest h]
    dsimp only
    rw [Int.toNat_of_nonneg (by omega)]

theorem parseValue_optStr (f : Nat) (o : Option String) (rest : List Char) :
    parseValue (f + 1) (dumpOptStr o ++ rest) = some (optStrJ o, rest) := by
  cases o with
  | none => exact parseValue_nullLit f rest
  | some s => exact parseValue_str f s rest

theorem parseValue_optInt (f : Nat) (o : Option Int) (rest : List Char)
    (h : numDelimB rest = true) :
    parseValue (f + 1) (dumpOptInt o ++ rest) = some (optIntJ o, rest) := by
  cases o with
  | none => exact parseValue_nullLit f rest
  | some n => exact parseValue_int f n rest h

/-! ### Serialized fragments start with non-whitespace -/

theorem skipJWs_quote (X : List Char) : skipJWs ('"' :: X) = '"' :: X := rfl

theorem skipJWs_dumpString (s : String) (X : List Char) :
    skipJWs (dumpString s ++ X) = dumpString s ++ X := by
  rw [dumpString, List.cons_append]
  rfl

theorem skipJWs_optStr (o : Option String) (X : List Char) :
    skipJWs (dumpOptStr o ++ X) = dumpOptStr o ++ X := by
  cases o with
  | none =>
    rw [show (dumpOptStr none ++ X : List Char)
      = 'n' :: ("ull".data ++ X) from rfl]
    rfl
  | some s => exact skipJWs_dumpString s X

theorem skipJWs_dumpInt (n : Int) (X : List Char) :
    skipJWs (dumpInt n ++ X) = dumpInt n ++ X := by
  by_cases hn : n < 0
  · rw [show dumpInt n = '-' :: natDigits n.natAbs from by
      simp only [dumpInt]; rw [if_pos hn]]
    rw [List.cons_append]
    rfl
  · rw [show dumpInt n = natDigits n.toNat from by
      simp only [dumpInt]; rw [if_neg hn]]
    obtain ⟨d, t, hdt, hdig⟩ := natDigits_cons n.toNat
    rw [hdt, List.cons_append]
    simp [skipJWs, List.dropWhile_cons, digit_not_jws d hdig]

theorem skipJWs_optInt (o : Option Int) (X : List Char) :
    skipJWs (dumpOptInt o ++ X) = dumpOptInt o ++ X := by
  cases o with
  | none =>
    rw [show (dumpOptInt none ++ X : List Char)
      = 'n' :: ("ull".data ++ X) from rfl]
    rfl
  | some n => exact skipJWs_dumpInt n X

theorem skipJWs_scope (sc : Option (List String)) (X : List Char) :
    skipJWs (dumpScope sc ++ X) = dumpScope sc ++ X := by
  cases sc with
  | none =>
    rw [show (dumpScope none ++ X : List Char)
      = 'n' :: ("ull".data ++ X) from rfl]
    rfl
  | some l =>
    cases l with
    | nil =>
      rw [show (dumpScope (some []) ++ X : List Char)
        = '[' :: (']' :: X) from rfl]
      rfl
    | cons s ss =>
      rw [show dumpScope (some (s :: ss)) = '[' :: (dumpStrList s ss ++ [']'])
        from rfl]
      rw [List.cons_append]
      rfl

theorem dumpStrList_head (s : String) (ss : List String) :
    ∃ Y, dumpStrList s ss = '"' :: Y := by
  cases ss with
  | nil => exact ⟨encodeChars s.data ++ ['"'], rfl⟩
  | cons s2 t =>
    exact ⟨(encodeChars s.data ++ ['"']) ++ ',' :: dumpStrList s2 t, rfl⟩

theorem skipJWs_dumpStrList (s : String) (ss : List String) (X : List Char) :
    skipJWs (dumpStrList s ss ++ X) = dumpStrList s ss ++ X := by
  obtain ⟨Y, hY⟩ := dumpStrList_head s ss
  rw [hY, List.cons_append]
  rfl

/-! ### String arrays parse back -/

theorem parseElems_comma (k : Nat) (s : List Char) (v : JVal) (Z : List Char)
    (hv : parseValue k s = some (v, ',' :: Z)) :
    parseElems (k + 1) s
      = (parseElems k (skipJWs Z)).map (fun p => (v :: p.1, p.2)) := by
  rw [parseElems_step, hv]
  rfl

theorem parseElems_lastE (k : Nat) (s : List Char) (v : JVal)
    (rest : List Char) (hv : parseValue k s = some (v, ']' :: rest)) :
    parseElems (k + 1) s = some ([v], rest) := by
  rw [parseElems_step, hv]
  rfl

theorem parseElems_strs : ∀ (ss : List String) (s : String) (fuel : Nat)
    (rest : List Char),
    parseElems (ss.length + fuel + 2) (dumpStrList s ss ++ ']' :: rest)
      = some ((s :: ss).map JVal.jstr, rest)
  | [], s, fuel, rest => by
    rw [show ([] : List String).length + fuel + 2 = (fuel + 1) + 1 from by
      simp]
    exact parseElems_lastE (fuel + 1) _ _ rest
      (parseValue_str fuel s (']' :: rest))
  | s2 :: ss2, s, fuel, rest => by
    have ih := parseElems_strs ss2 s2 fuel rest
    rw [show (s2 :: ss2).length + fuel + 2 = ((ss2.length + fuel + 1) + 1) + 1
      from by simp only [List.length_cons]; omega]
    have h1 : dumpStrList s (s2 :: ss2) ++ ']' :: rest
        = dumpString s ++ ',' :: (dumpStrList s2 ss2 ++ ']' :: rest) := by
      simp [dumpStrList, List.append_assoc]
    rw [h1]
    rw [parseElems_comma ((ss2.length + fuel + 1) + 1) _ _ _
      (parseValue_str (ss2.length + fuel + 1) s
        (',' :: (dumpStrList s2 ss2 ++ ']' :: rest)))]
    rw [skipJWs_dumpStrList]
    rw [show (ss2.length + fuel + 1) + 1 = ss2.length + fuel + 2 from rfl]
    rw [ih]
    rfl

def scopeLenO : Option (List String) → Nat
  | none => 0
  | some l => l.length

theorem parseValue_scope (sc : Option (List String)) (fuel : Nat)
    (rest : List Char) :
    parseValue (scopeLenO sc + fuel + 2) (dumpScope sc ++ rest)
      = some (scopeJ sc, rest) := by
  cases sc with
  | none => exact parseValue_nullLit (scopeLenO none + fuel + 1) rest
  | some l =>
    cases l with
    | nil => exact parseValue_arr_empty (scopeLenO (some []) + fuel + 1) rest
    | cons s ss =>
      have h1 : dumpScope (some (s :: ss)) ++ rest
          = '[' :: (dumpStrList s ss ++ ']' :: rest) := by
        simp [dumpScope, List.append_assoc]
      rw [h1]
      obtain ⟨Y, hY⟩ := dumpStrList_head s ss
      rw [hY, List.cons_append]
      rw [show scopeLenO (some (s :: ss)) + fuel + 2
          = (ss.length + fuel + 2) + 1 from by
        simp only [scopeLenO, List.length_cons]; omega]
      rw [parseValue_arr_quote]
      rw [← List.cons_append, ← hY]
      rw [parseElems_strs ss s fuel rest]
      rfl

/-! ### Object members parse back -/

theorem parseMembers_keyCont (k : Nat) (key : String) (v : JVal)
    (W B rest : List Char) (ms : List (String × JVal))
    (hskip : skipJWs W = W)
    (hval : parseValue k W = some (v, ',' :: '"' :: B))
    (hcont : parseMembers k ('"' :: B) = some (ms, rest)) :
    parseMembers (k + 1) ('"' :: (encodeChars key.data ++ '"' :: ':' :: W))
      = some ((key, v) :: ms, rest) := by
  rw [parseMembers_quote, parseStringBody_encode key.data (':' :: W)]
  show (match parseValue k (skipJWs W) with
        | none => none
        | some (v, r4) =>
          match skipJWs r4 with
          | '}' :: r6 => some ([(String.mk key.data, v)], r6)
          | ',' :: r6 =>
            match skipJWs r6 with
            | '"' :: r7 =>
              (parseMembers k ('"' :: r7)).map (fun p =>
                ((String.mk key.data, v) :: p.1, p.2))
            | _ => none
          | _ => none) = some ((key, v) :: ms, rest)
  rw [hskip, hval]
  show (parseMembers k ('"' :: B)).map (fun p =>
    ((String.mk key.data, v) :: p.1, p.2)) = some ((key, v) :: ms, rest)
  rw [hcont]
  rfl

theorem parseMembers_keyLast (k : Nat) (key : String) (v : JVal)
    (W rest : List Char)
    (hskip : skipJWs W = W)
    (hval : parseValue k W = some (v, '}' :: rest)) :
    parseMembers (k + 1) ('"' :: (encodeChars key.data ++ '"' :: ':' :: W))
      = some ([(key, v)], rest) := by
  rw [parseMembers_quote, parseStringBody_encode key.data (':' :: W)]
  show (match parseValue k (skipJWs W) with
        | none => none
        | some (v, r4) =>
          match skipJWs r4 with
          | '}' :: r6 => some ([(String.mk key.data, v)], r6)
          | ',' :: r6 =>
            match skipJWs r6 with
            | '"' :: r7 =>
              (parseMembers k ('"' :: r7)).map (fun p =>
                ((String.mk key.data, v) :: p.1, p.2))
            | _ => none
          | _ => none) = some ([(key, v)], rest)
  rw [hskip, hval]
  rfl

/-! ### A serialized task record parses back -/

def scLen (t : RawTaskInput) : Nat := scopeLenO t.scope

/-- The decoded members of a serialized task record, in serialization
order. -/
def taskMembers (t : RawTaskInput) : List (String × JVal) :=
  [("id", optStrJ t.id), ("description", JVal.jstr t.description),
   ("scope", scopeJ t.scope), ("acceptance", optStrJ t.acceptance),
   ("priority", optIntJ t.priority), ("team", optStrJ t.team)]

def taskToJVal (t : RawTaskInput) : JVal := JVal.jobj (taskMembers t)

/-- The serialized characters of a task record after the member key
`"team"`, and so on outwards for the other members. -/
def teamTail (t : RawTaskInput) (rest : List Char) : List Char :=
  encodeChars "team".data ++ '"' :: ':' :: (dumpOptStr t.team ++ '}' :: rest)

def priorityTail (t : RawTaskInput) (rest : List Char) : List Char :=
  encodeChars "priority".data ++ '"' :: ':'
    :: (dumpOptInt t.priority ++ ',' :: '"' :: teamTail t rest)

def acceptanceTail (t : RawTaskInput) (rest : List Char) : List Char :=
  encodeChars "acceptance".data ++ '"' :: ':'
    :: (dumpOptStr t.acceptance ++ ',' :: '"' :: priorityTail t rest)

def scopeTail (t : RawTaskInput) (rest : List Char) : List Char :=
  encodeChars "scope".data ++ '"' :: ':'
    :: (dumpScope t.scope ++ ',' :: '"' :: acceptanceTail t rest)

def descriptionTail (t : RawTaskInput) (rest : List Char) : List Char :=
  encodeChars "description".data ++ '"' :: ':'
    :: (dumpString t.description ++ ',' :: '"' :: scopeTail t rest)

def idTail (t : RawTaskInput) (rest : List Char) : List Char :=
  encodeChars "id".data ++ '"' :: ':'
    :: (dumpOptStr t.id ++ ',' :: '"' :: descriptionTail t rest)

theorem parseMembers_task (t : RawTaskInput) (fuel : Nat) (rest : List Char) :
    parseMembers (scLen t + fuel + 7) ('"' :: idTail t rest)
      = some (taskMembers t, rest) := by
  have h6 := parseMembers_keyLast (scLen t + fuel + 1) "team" (optStrJ t.team)
    (dumpOptStr t.team ++ '}' :: rest) rest
    (skipJWs_optStr t.team ('}' :: rest))
    (parseValue_optStr (scLen t + fuel) t.team ('}' :: rest))
  have h5 := parseMembers_keyCont (scLen t + fuel + 2) "priority"
    (optIntJ t.priority)
    (dumpOptInt t.priority ++ ',' :: '"' :: teamTail t rest)
    (teamTail t rest) rest [("team", optStrJ t.team)]
    (skipJWs_optInt t.priority (',' :: '"' :: teamTail t rest))
    (parseValue_optInt (scLen t + fuel + 1) t.priority
      (',' :: '"' :: teamTail t rest) rfl)
    h6
  have h4 := parseMembers_keyCont (scLen t + fuel + 3) "acceptance"
    (optStrJ t.acceptance)
    (dumpOptStr t.acceptance ++ ',' :: '"' :: priorityTail t rest)
    (priorityTail t rest) rest
    [("priority", optIntJ t.priority), ("team", optStrJ t.team)]
    (skipJWs_optStr t.acceptance (',' :: '"' :: priorityTail t rest))
    (parseValue_optStr (scLen t + fuel + 2) t.acceptance
      (',' :: '"' :: priorityTail t rest))
    h5
  have h3 := parseMembers_keyCont (scLen t + fuel + 4) "scope"
    (scopeJ t.scope)
    (dumpScope t.scope ++ ',' :: '"' :: acceptanceTail t rest)
    (acceptanceTail t rest) rest
    [("acceptance", optStrJ t.acceptance),
     ("priority", optIntJ t.priority), ("team", optStrJ t.team)]
    (skipJWs_scope t.scope (',' :: '"' :: acceptanceTail t rest))
    (parseValue_scope t.scope (fuel + 2) (',' :: '"' :: acceptanceTail t rest))
    h4
  have h2 := parseMembers_keyCont (scLen t + fuel + 5) "description"
    (JVal.jstr t.description)
    (dumpString t.description ++ ',' :: '"' :: scopeTail t rest)
    (scopeTail t rest) rest
    [("scope", scopeJ t.scope), ("acceptance", optStrJ t.acceptance),
     ("priority", optIntJ t.priority), ("team", optStrJ t.team)]
    (skipJWs_dumpString t.description (',' :: '"' :: scopeTail t rest))
    (parseValue_str (scLen t + fuel + 4) t.description
      (',' :: '"' :: scopeTail t rest))
    h3
  have h1 := parseMembers_keyCont (scLen t + fuel + 6) "id" (optStrJ t.id)
    (dumpOptStr t.id ++ ',' :: '"' :: descriptionTail t rest)
    (descriptionTail t rest) rest
    [("description", JVal.jstr t.description), ("scope", scopeJ t.scope),
     ("acceptance", optStrJ t.acceptance), ("priority", optIntJ t.priority),
     ("team", optStrJ t.team)]
    (skipJWs_optStr t.id (',' :: '"' :: descriptionTail t rest))
    (parseValue_optStr (scLen t + fuel + 5) t.id
      (',' :: '"' :: descriptionTail t rest))
    h2
  exact h1

theorem parseValue_task (t : RawTaskInput) (fuel : Nat) (rest : List Char) :
    parseValue (scLen t + fuel + 8) (dumpTask t ++ rest)
      = some (taskToJVal t, rest) := by
  have hre : dumpTask t ++ rest = '{' :: '"' :: idTail t rest := by
    simp only [dumpTask, idTail, descriptionTail, scopeTail, acceptanceTail,
      priorityTail, teamTail, List.append_assoc]
    rfl
  rw [hre, show scLen t + fuel + 8 = (scLen t + fuel + 7) + 1 from rfl,
    parseValue_obj_quote, parseMembers_task t fuel rest]
  rfl

/-! ### The serialized tasks array parses back -/

/-- Fuel sufficient for the scanner on a serialized task list. -/
def tasksNeed : List RawTaskInput → Nat
  | [] => 1
  | t :: ts => scLen t + 9 + tasksNeed ts

theorem dumpTasks_head (t : RawTaskInput) (ts : List RawTaskInput) :
    ∃ Y, dumpTasks t ts = '{' :: Y := by
  cases ts with
  | nil => exact ⟨_, rfl⟩
  | cons t2 ts2 => exact ⟨_, rfl⟩

theorem skipJWs_dumpTasks (t : RawTaskInput) (ts : List RawTaskInput)
    (X : List Char) :
    skipJWs (dumpTasks t ts ++ X) = dumpTasks t ts ++ X := by
  obtain ⟨Y, hY⟩ := dumpTasks_head t ts
  rw [hY, List.cons_append]
  rfl

theorem parseElems_tasks : ∀ (ts : List RawTaskInput) (t : RawTaskInput)
    (fuel : Nat) (rest : List Char),
    parseElems (tasksNeed (t :: ts) + fuel) (dumpTasks t ts ++ ']' :: rest)
      = some ((t :: ts).map taskToJVal, rest)
  | [], t, fuel, rest => by
    rw [show tasksNeed [t] + fuel = (scLen t + (fuel + 1) + 8) + 1 from by
      simp only [tasksNeed]; omega]
    exact parseElems_lastE _ _ _ rest (parseValue_task t (fuel + 1) (']' :: rest))
  | t2 :: ts2, t, fuel, rest => by
    have ih := parseElems_tasks ts2 t2 (scLen t + fuel + 8) rest
    rw [show tasksNeed (t :: t2 :: ts2) + fuel
        = (scLen t + (tasksNeed (t2 :: ts2) + fuel) + 8) + 1 from by
      simp only [tasksNeed]; omega]
    have h1 : dumpTasks t (t2 :: ts2) ++ ']' :: rest
        = dumpTask t ++ ',' :: (dumpTasks t2 ts2 ++ ']' :: rest) := by
      simp [dumpTasks, List.append_assoc]
    rw [h1]
    rw [parseElems_comma (scLen t + (tasksNeed (t2 :: ts2) + fuel) + 8) _ _ _
      (parseValue_task t (tasksNeed (t2 :: ts2) + fuel)
        (',' :: (dumpTasks t2 ts2 ++ ']' :: rest)))]
    rw [skipJWs_dumpTasks]
    rw [show scLen t + (tasksNeed (t2 :: ts2) + fuel) + 8
        = tasksNeed (t2 :: ts2) + (scLen t + fuel + 8) from by omega]
    rw [ih]
    rfl

theorem parseValue_tasksArr (ts : List RawTaskInput) (fuel : Nat)
    (rest : List Char) :
    parseValue (tasksNeed ts + fuel + 1) (dumpTasksArr ts ++ rest)
      = some (JVal.jarr (ts.map taskToJVal), rest) := by
  cases ts with
  | nil =>
    rw [show (dumpTasksArr [] ++ rest : List Char) = '[' :: ']' :: rest
      from rfl]
    exact parseValue_arr_empty (tasksNeed [] + fuel) rest
  | cons t ts2 =>
    have h1 : dumpTasksArr (t :: ts2) ++ rest
        = '[' :: (dumpTasks t ts2 ++ ']' :: rest) := by
      simp [dumpTasksArr, List.append_assoc]
    rw [h1]
    obtain ⟨Y, hY⟩ := dumpTasks_head t ts2
    rw [hY, List.cons_append, parseValue_arr_brace, ← List.cons_append, ← hY]
    rw [parseElems_tasks ts2 t fuel rest]
    rfl

/-! ### The whole serialized planner response parses back -/

def prMembers (x : PlannerValue) : List (String × JVal) :=
  [("scratchpad", JVal.jstr x.scratchpad),
   ("tasks", JVal.jarr (x.tasks.map taskToJVal))]

/-- The decoded JSON of a serialized planner-response value. -/
def prJVal (x : PlannerValue) : JVal := JVal.jobj (prMembers x)

theorem skipJWs_tasksArr (ts : List RawTaskInput) (X : List Char) :
    skipJWs (dumpTasksArr ts ++ X) = dumpTasksArr ts ++ X := by
  cases ts with
  | nil =>
    rw [show (dumpTasksArr [] ++ X : List Char) = '[' :: (']' :: X) from rfl]
    rfl
  | cons t ts2 =>
    rw [show dumpTasksArr (t :: ts2) = '[' :: (dumpTasks t ts2 ++ [']'])
      from rfl]
    rw [List.cons_append]
    rfl

def tasksTail (x : PlannerValue) (rest : List Char) : List Char :=
  encodeChars "tasks".data ++ '"' :: ':'
    :: (dumpTasksArr x.tasks ++ '}' :: rest)

def scratchTail (x : PlannerValue) (rest : List Char) : List Char :=
  encodeChars "scratchpad".data ++ '"' :: ':'
    :: (dumpString x.scratchpad ++ ',' :: '"' :: tasksTail x rest)

theorem parseMembers_PR (x : PlannerValue) (fuel : Nat) (rest : List Char) :
    parseMembers (tasksNeed x.tasks + fuel + 3) ('"' :: scratchTail x rest)
      = some (prMembers x, rest) := by
  have h2 := parseMembers_keyLast (tasksNeed x.tasks + fuel + 1) "tasks"
    (JVal.jarr (x.tasks.map taskToJVal))
    (dumpTasksArr x.tasks ++ '}' :: rest) rest
    (skipJWs_tasksArr x.tasks ('}' :: rest))
    (parseValue_tasksArr x.tasks fuel ('}' :: rest))
  have h1 := parseMembers_keyCont (tasksNeed x.tasks + fuel + 2) "scratchpad"
    (JVal.jstr x.scratchpad)
    (dumpString x.scratchpad ++ ',' :: '"' :: tasksTail x rest)
    (tasksTail x rest) rest
    [("tasks", JVal.jarr (x.tasks.map taskToJVal))]
    (skipJWs_dumpString x.scratchpad (',' :: '"' :: tasksTail x rest))
    (parseValue_str (tasksNeed x.tasks + fuel + 1) x.scratchpad
      (',' :: '"' :: tasksTail x rest))
    h2
  exact h1

theorem parseValue_PR (x : PlannerValue) (fuel : Nat) (rest : List Char) :
    parseValue (tasksNeed x.tasks + fuel + 4) ((serializePR x).data ++ rest)
      = some (prJVal x, rest) := by
  have hre : (serializePR x).data ++ rest = '{' :: '"' :: scratchTail x rest := by
    simp only [serializePR, scratchTail, tasksTail, List.append_assoc]
    rfl
  rw [hre, show tasksNeed x.tasks + fuel + 4
      = (tasksNeed x.tasks + fuel + 3) + 1 from rfl,
    parseValue_obj_quote, parseMembers_PR x fuel rest]
  rfl

/-! ### Length bounds: the scanner fuel `length + 1` suffices -/

theorem dumpString_len (s : String) : 2 ≤ (dumpString s).length := by
  simp only [dumpString, List.length_cons, List.length_append]
  omega

theorem dumpOptStr_len (o : Option String) : 2 ≤ (dumpOptStr o).length := by
  cases o with
  | none => decide
  | some s => exact dumpString_len s

theorem dumpInt_len (n : Int) : 1 ≤ (dumpInt n).length := by
  by_cases hn : n < 0
  · rw [show dumpInt n = '-' :: natDigits n.natAbs from by
      simp only [dumpInt]; rw [if_pos hn]]
    simp
  · rw [show dumpInt n = natDigits n.toNat from by
      simp only [dumpInt]; rw [if_neg hn]]
    obtain ⟨d, t, hdt, _⟩ := natDigits_cons n.toNat
    rw [hdt]
    simp

theorem dumpOptInt_len (o : Option Int) : 1 ≤ (dumpOptInt o).length := by
  cases o with
  | none => decide
  | some n => exact dumpInt_len n

theorem dumpStrList_len : ∀ (ss : List String) (s : String),
    ss.length + 2 ≤ (dumpStrList s ss).length
  | [], s => by
    simpa using dumpString_len s
  | s2 :: t, s => by
    have ih := dumpStrList_len t s2
    have h2 := dumpString_len s
    simp only [dumpStrList, List.length_append, List.length_cons]
    simp only [List.length_cons] at ih ⊢
    omega

theorem dumpScope_len (sc : Option (List String)) :
    scopeLenO sc + 1 ≤ (dumpScope sc).length := by
  cases sc with
  | none => decide
  | some l =>
    cases l with
    | nil => decide
    | cons s ss =>
      have h := dumpStrList_len ss s
      simp only [dumpScope, scopeLenO, List.length_cons, List.length_append]
      omega

theorem dumpTask_len (t : RawTaskInput) : scLen t + 10 ≤ (dumpTask t).length := by
  have h1 := dumpOptStr_len t.id
  have h2 := dumpString_len t.description
  have h3 := dumpScope_len t.scope
  have h4 := dumpOptStr_len t.acceptance
  have h5 := dumpOptInt_len t.priority
  have h6 := dumpOptStr_len t.team
  simp only [dumpTask, List.length_append]
  rw [show ("\x7b\"id\":".data).length = 6 from rfl,
    show (",\"description\":".data).length = 15 from rfl,
    show (",\"scope\":".data).length = 9 from rfl,
    show (",\"acceptance\":".data).length = 14 from rfl,
    show (",\"priority\":".data).length = 12 from rfl,
    show (",\"team\":".data).length = 8 from rfl,
    show ("\x7d".data).length = 1 from rfl]
  simp only [scLen]
  omega

theorem dumpTasks_len : ∀ (ts : List RawTaskInput) (t : RawTaskInput),
    tasksNeed (t :: ts) ≤ (dumpTasks t ts).length
  | [], t => by
    have h := dumpTask_len t
    simp only [tasksNeed, dumpTasks]
    omega
  | t2 :: ts2, t => by
    have ih := dumpTasks_len ts2 t2
    have h := dumpTask_len t
    simp only [tasksNeed, dumpTasks, List.length_append, List.length_cons]
      at ih ⊢
    omega

theorem dumpTasksArr_len (ts : List RawTaskInput) :
    tasksNeed ts ≤ (dumpTasksArr ts).length := by
  cases ts with
  | nil => decide
  | cons t ts2 =>
    have h := dumpTasks_len ts2 t
    simp only [dumpTasksArr, tasksNeed, List.length_cons, List.length_append]
      at h ⊢
    omega

theorem serializePR_len (x : PlannerValue) :
    tasksNeed x.tasks + 3 ≤ (serializePR x).data.length := by
  have h1 := dumpString_len x.scratchpad
  have h2 := dumpTasksArr_len x.tasks
  have hmk : ∀ l : List Char, (String.mk l).data = l := fun l => rfl
  simp only [serializePR, hmk, List.length_append]
  rw [show ("\x7b\"scratchpad\":".data).length = 14 from rfl,
    show (",\"tasks\":".data).length = 9 from rfl,
    show ("\x7d".data).length = 1 from rfl]
  omega

/-- The left-assoc body of the serialization between the outer braces. -/
def prMid (x : PlannerValue) : List Char :=
  "\"scratchpad\":".data ++ dumpString x.scratchpad
    ++ ",\"tasks\":".data ++ dumpTasksArr x.tasks

theorem serializePR_split (x : PlannerValue) :
    (serializePR x).data = '{' :: (prMid x ++ ['}']) := by
  simp only [serializePR, prMid, List.append_assoc]
  rfl

theorem serializePR_cons (x : PlannerValue) :
    (serializePR x).data = '{' :: '"' :: scratchTail x [] := by
  have h1 : (serializePR x).data ++ [] = '{' :: '"' :: scratchTail x [] := by
    simp only [serializePR, scratchTail, tasksTail, List.append_assoc]
    rfl
  rw [List.append_nil] at h1
  exact h1

theorem tryJsonLoads_serializePR (x : PlannerValue) :
    tryJsonLoads (serializePR x).data = some (prJVal x) := by
  have hlen := serializePR_len x
  obtain ⟨slack, hs⟩ : ∃ s, (serializePR x).data.length + 1
      = tasksNeed x.tasks + s + 4 :=
    ⟨(serializePR x).data.length + 1 - tasksNeed x.tasks - 4, by omega⟩
  have hskip : skipJWs (serializePR x).data = (serializePR x).data := by
    rw [serializePR_cons]
    rfl
  simp only [tryJsonLoads]
  rw [hskip, hs]
  rw [show (serializePR x).data = (serializePR x).data ++ []
    from (List.append_nil _).symm]
  rw [parseValue_PR x slack []]
  rfl

/-! ### The surrounding pipeline leaves the serialization alone -/

theorem pyStrip_wrap (a : Char) (mid : List Char) (b : Char)
    (ha : isPyWs a = false) (hb : isPyWs b = false) :
    pyStrip (a :: (mid ++ [b])) = a :: (mid ++ [b]) := by
  have hna : ¬(isPyWs a = true) := by simp [ha]
  have hnb : ¬(isPyWs b = true) := by simp [hb]
  simp only [pyStrip]
  rw [List.dropWhile_cons, if_neg hna]
  rw [show (a :: (mid ++ [b])).reverse = b :: (mid.reverse ++ [a]) from by
    simp]
  rw [List.dropWhile_cons, if_neg hnb]
  rw [show (b :: (mid.reverse ++ [a])).reverse = a :: (mid ++ [b]) from by
    simp]

theorem stripFences_of_nofence (l : List Char)
    (h : findLitIdx tripleBacktick l = none) : stripMarkdownFences l = l := by
  have h1 : fenceInner l = none := by
    simp only [fenceInner]
    rw [h]
  rw [stripMarkdownFences, show (3 : Nat) = 2 + 1 from rfl]
  simp only [stripFencesLoop]
  rw [h1]

theorem findIdx_brace (X : List Char) : findIdxOfChar '{' ('{' :: X) = some 0 :=
  rfl

theorem rfind_brace (x : PlannerValue) :
    rfindIdxOfChar '}' (serializePR x).data
      = some ((serializePR x).data.length - 1) := by
  simp only [rfindIdxOfChar]
  rw [serializePR_split]
  rw [show ('{' :: (prMid x ++ ['}'])).reverse
      = '}' :: ((prMid x).reverse ++ ['{']) from by simp]
  rw [show List.findIdx? (fun c => c == '}')
      ('}' :: ((prMid x).reverse ++ ['{'])) = some 0 from rfl]
  simp

theorem slice_full (l : List Char) (h : 1 ≤ l.length) :
    sliceList l 0 (l.length - 1 + 1) = l := by
  rw [sliceList, List.drop_zero, Nat.sub_zero, Nat.sub_add_cancel h]
  exact List.take_length l

theorem prTasks_lookup (x : PlannerValue) :
    pyGetNone (prMembers x) "tasks" = JVal.jarr (x.tasks.map taskToJVal) := rfl

theorem prScratch_lookup (x : PlannerValue) :
    pyGetD (prMembers x) "scratchpad" (JVal.jstr "")
      = JVal.jstr x.scratchpad := rfl

theorem filterMap_tasks (ts : List RawTaskInput) :
    (ts.map taskToJVal).filterMap jvalToRawV = ts.map rawToParsed := by
  rw [List.filterMap_map]
  rw [show (jvalToRawV ∘ taskToJVal) = (some ∘ rawToParsed)
    from funext fun t => rfl]
  exact congrFun (List.filterMap_eq_map rawToParsed) ts

/-- **C7** (amended): for every planner-response value whose standard JSON
serialization contains no triple-backtick run, parsing the serialization
recovers the value exactly — the parsed scratchpad is the original
scratchpad string and the parsed task list is the original task list in its
decoded raw form.  (Without that proviso the claim fails: see the
counterexample, where the fence-stripping pass fires inside a string
value.) -/
theorem c7_parse_serialize (x : PlannerValue)
    (hfence : findLitIdx tripleBacktick (serializePR x).data = none) :
    parsePlannerResponse (serializePR x)
      = { scratchpad := JVal.jstr x.scratchpad
          tasks := x.tasks.map rawToParsed } := by
  have hstrip : pyStrip (serializePR x).data = (serializePR x).data := by
    rw [serializePR_split]
    exact pyStrip_wrap '{' (prMid x) '}' rfl rfl
  have hfences := stripFences_of_nofence (serializePR x).data hfence
  have hfind : findIdxOfChar '{' (serializePR x).data = some 0 := by
    rw [serializePR_split]
    exact findIdx_brace _
  have hrfind := rfind_brace x
  have hlen := serializePR_len x
  have htn : 1 ≤ tasksNeed x.tasks := by
    cases h : x.tasks with
    | nil => simp [tasksNeed]
    | cons t l => simp only [tasksNeed]; omega
  simp only [parsePlannerResponse]
  rw [hstrip, hfences, hfind, hrfind]
  dsimp only
  rw [if_pos (show 0 < (serializePR x).data.length - 1 from by omega)]
  rw [slice_full (serializePR x).data (by omega)]
  rw [tryJsonLoads_serializePR x]
  rw [show prJVal x = JVal.jobj (prMembers x) from rfl]
  dsimp only
  rw [prTasks_lookup]
  dsimp only
  rw [prScratch_lookup, filterMap_tasks]

/-- A concrete planner-response value exercising every field shape: an
explicit id, scope list, acceptance, priority and team on one task and all
of them absent on another. -/
def c7Good : PlannerValue :=
  { scratchpad := "Plan: build the parser, then the tests."
    tasks :=
      [{ id := some "T-1"
         description := "Implement the feature"
         scope := some ["src/a.py", "src/b.py"]
         acceptance := some "tests pass"
         priority := some 2
         team := some "engineering" },
       { id := none
         description := "Review"
         scope := none
         acceptance := none
         priority := none
         team := none }] }

set_option maxRecDepth 8000 in
theorem c7_parse_serialize_witness :
    findLitIdx tripleBacktick (serializePR c7Good).data = none ∧
    parsePlannerResponse (serializePR c7Good)
      = { scratchpad := JVal.jstr c7Good.scratchpad
          tasks := c7Good.tasks.map rawToParsed } :=
  ⟨rfl, c7_parse_serialize c7Good rfl⟩

end AgentSwarm
